import Mathlib

/-!
# Livestatus tables `hosts` and `services`

A shallow embedding of `TableHosts.cc`, `TableServices.cc` and `CommentColumn.cc`.

* The monitoring core's memory is a record `Core`: the object records are found
  through total lookup functions indexed by address, a C pointer that may be null
  is an `Option` of an address, and a null-terminated linked list
  (`hostsmember`, `servicesmember`, `objectlist`, the global `host_list` and
  `service_list`) is the `List` of the objects its nodes point to, in link order.
* A `Query` is its restriction lookup together with the continuation callback
  `processDataset`, which threads a state of the query's own choosing.
* `answerQuery` is written in state-passing style: it takes the query state before
  the call and returns the one after it.
-/

namespace Livestatus

/-! ## The monitoring core's objects -/

/-- Address of a `host` record. -/
abbrev HostPtr := Nat

/-- Address of a `service` record. -/
abbrev ServicePtr := Nat

/-- Address of a `hostgroup` record. -/
abbrev HostGroupPtr := Nat

/-- Address of a `servicegroup` record. -/
abbrev ServiceGroupPtr := Nat

/-- Address of a `contact` record. -/
abbrev ContactPtr := Nat

/-- Address of a `contactgroup` record. -/
abbrev ContactGroupPtr := Nat

/-- The Nagios `contact` record, as far as the tables read it. -/
structure contact where
  name : String := ""
  deriving DecidableEq, Repr

/-- The Nagios `contactgroup` record: its name and its `contactsmember` list. -/
structure contactgroup where
  group_name : String := ""
  members : List ContactPtr := []
  deriving DecidableEq, Repr

/-- The Nagios `command` record, as far as the tables read it. -/
structure command where
  name : String := ""
  deriving DecidableEq, Repr

/-- The Nagios `host` record, as far as the code below reads it.  `char *` members that
the tables test against `nullptr` are optional strings. -/
structure host where
  name : Option String := none
  services : List ServicePtr := []
  hostgroups_ptr : List HostGroupPtr := []
  current_state : Int := 0
  state_type : Int := 0
  last_hard_state : Int := 0
  check_interval : ℚ := 0
  last_check : Int := 0
  contacts : List ContactPtr := []
  contact_groups : List ContactGroupPtr := []
  deriving DecidableEq, Repr

/-- The Nagios `service` record, as far as the code below reads it. -/
structure service where
  description : Option String := none
  host_name : Option String := none
  host_ptr : Option HostPtr := none
  check_command_ptr : Option command := none
  check_interval : ℚ := 0
  last_check : Int := 0
  servicegroups_ptr : List ServiceGroupPtr := []
  current_state : Int := 0
  state_type : Int := 0
  last_hard_state : Int := 0
  contacts : List ContactPtr := []
  contact_groups : List ContactGroupPtr := []
  deriving DecidableEq, Repr

/-- The Nagios `hostgroup` record: its name and its `hostsmember` list. -/
structure hostgroup where
  group_name : String := ""
  members : List HostPtr := []
  deriving DecidableEq, Repr

/-- The Nagios `servicegroup` record: its name and its `servicesmember` list. -/
structure servicegroup where
  group_name : String := ""
  members : List ServicePtr := []
  deriving DecidableEq, Repr

/-- The state of the monitoring core that the tables read: the object memory, the global
lists, the name indices (`find_host` and `find_service` of `MonitoringCore`,
`find_hostgroup` and `find_servicegroup` of Nagios), the global `interval_length` and the
current time `time(nullptr)`. -/
structure Core where
  hostAt : HostPtr → host
  serviceAt : ServicePtr → service
  hostgroupAt : HostGroupPtr → hostgroup
  servicegroupAt : ServiceGroupPtr → servicegroup
  host_list : List HostPtr
  service_list : List ServicePtr
  find_host : String → Option HostPtr
  find_service : String → String → Option ServicePtr
  find_hostgroup : String → Option HostGroupPtr
  find_servicegroup : String → Option ServiceGroupPtr
  interval_length : Int
  now : Int
  contactAt : ContactPtr → contact := fun _ => {}
  contactgroupAt : ContactGroupPtr → contactgroup := fun _ => {}

/-! ## Rows -/

/-- What a `Row` or a column offset can point at: a host record, a service record, or a
member inside a record (the result of `&r.rawData<T>()->member`). -/
inductive Addr where
  | host (p : HostPtr)
  | service (p : ServicePtr)
  | member (base : Addr) (field : String)
  deriving DecidableEq, Repr

/-- The class `Row`: an untyped pointer to a record, possibly null. -/
structure Row where
  rawData : Option Addr
  deriving DecidableEq, Repr

/-- The null row `Row(nullptr)`. -/
def Row.null : Row := ⟨none⟩

/-- The test `Row::isNull`. -/
def Row.isNull (row : Row) : Bool := row.rawData.isNone

/-- The row `Row(r)` for a non-null `const host *r`. -/
def Row.ofHost (p : HostPtr) : Row := ⟨some (Addr.host p)⟩

/-- The row `Row(r)` for a non-null `const service *r`. -/
def Row.ofService (p : ServicePtr) : Row := ⟨some (Addr.service p)⟩

/-! ## Queries -/

/-- The part of `Query` that `answerQuery` uses: the lookup
`stringValueRestrictionFor(column)` and the continuation callback `processDataset(row)`,
which returns `true` to continue and `false` to stop. The callback may keep a state of
type `σ` between its calls. -/
structure Query (σ : Type) where
  stringValueRestrictionFor : String → Option String
  processDataset : σ → Row → Bool × σ

/-- The loop `for (p = first; p != nullptr; p = p->next) { if
(!query->processDataset(Row(r))) break; }` over a linked list of records. -/
def scanUntilStop {σ α : Type} (query : Query σ) (mkRow : α → Row) : List α → σ → σ
  | [], s => s
  | r :: rest, s =>
    match query.processDataset s (mkRow r) with
    | (true, s') => scanUntilStop query mkRow rest s'
    | (false, s') => s'

/-- The method `TableHosts::answerQuery`. -/
def TableHosts.answerQuery {σ : Type} (core : Core) (query : Query σ) (s : σ) : σ :=
  -- do we know the host group?
  match query.stringValueRestrictionFor "groups" with
  | some value =>
    match core.find_hostgroup value with
    | some hg => scanUntilStop query Row.ofHost (core.hostgroupAt hg).members s
    | none => s
  | none =>
    -- no index -> linear search over all hosts
    scanUntilStop query Row.ofHost core.host_list s

/-- The inner loop of the host-group branch of `TableServices::answerQuery`, over the
services of one member host. The flag of the result is `true` when the loop left the
whole function through `return`. -/
def scanServicesOrReturn {σ : Type} (query : Query σ) : List ServicePtr → σ → Bool × σ
  | [], s => (false, s)
  | r :: rest, s =>
    match query.processDataset s (Row.ofService r) with
    | (true, s') => scanServicesOrReturn query rest s'
    | (false, s') => (true, s')

/-- The outer loop of the host-group branch of `TableServices::answerQuery`, over the
members of the host group. -/
def scanMemberServices {σ : Type} (core : Core) (query : Query σ) : List HostPtr → σ → σ
  | [], s => s
  | m :: rest, s =>
    match scanServicesOrReturn query (core.hostAt m).services s with
    | (true, s') => s'
    | (false, s') => scanMemberServices core query rest s'

/-- The method `TableServices::answerQuery` from the service-group test on, which is
where control arrives when the host-name index is not used. -/
def TableServices.answerQueryWithoutHost {σ : Type} (core : Core) (query : Query σ)
    (s : σ) : σ :=
  -- do we know the service group?
  match query.stringValueRestrictionFor "groups" with
  | some value =>
    match core.find_servicegroup value with
    | some sg => scanUntilStop query Row.ofService (core.servicegroupAt sg).members s
    | none => s
  | none =>
    -- do we know the host group?
    match query.stringValueRestrictionFor "host_groups" with
    | some value =>
      match core.find_hostgroup value with
      | some hg => scanMemberServices core query (core.hostgroupAt hg).members s
      | none => s
    | none =>
      -- no index -> iterator over *all* services
      scanUntilStop query Row.ofService core.service_list s

/-- The method `TableServices::answerQuery`. -/
def TableServices.answerQuery {σ : Type} (core : Core) (query : Query σ) (s : σ) : σ :=
  -- do we know the host?
  match query.stringValueRestrictionFor "host_name" with
  | some value =>
    match core.find_host value with
    | some h => scanUntilStop query Row.ofService (core.hostAt h).services s
    | none => TableServices.answerQueryWithoutHost core query s
  | none => TableServices.answerQueryWithoutHost core query s

/-! ## Observing the calls of the continuation callback -/

/-- The query `query` with a callback that also writes down, in call order, every row it is
passed together with the answer `query.processDataset` gives for it. The answers and the
state of `query` are untouched. -/
def Query.recording {σ : Type} (query : Query σ) : Query (σ × List (Row × Bool)) where
  stringValueRestrictionFor := query.stringValueRestrictionFor
  processDataset := fun st row =>
    ((query.processDataset st.1 row).1,
      ((query.processDataset st.1 row).2, st.2 ++ [(row, (query.processDataset st.1 row).1)]))

/-- The calls of `processDataset` that one invocation of `TableHosts::answerQuery` makes:
each row passed, in order, with the callback's answer. -/
def TableHosts.calls {σ : Type} (core : Core) (query : Query σ) (s : σ) : List (Row × Bool) :=
  (TableHosts.answerQuery core query.recording (s, [])).2

/-- The calls of `processDataset` that one invocation of `TableServices::answerQuery`
makes. -/
def TableServices.calls {σ : Type} (core : Core) (query : Query σ) (s : σ) :
    List (Row × Bool) :=
  (TableServices.answerQuery core query.recording (s, [])).2

/-- The candidate sequence of the path that `TableHosts::answerQuery` takes for the given
restrictions: the member list of the host group named by `groups` (nothing when the name
resolves to no group), and `host_list` when there is no `groups` restriction. -/
def TableHosts.candidates (core : Core) (restriction : String → Option String) : List Row :=
  match restriction "groups" with
  | some value =>
    match core.find_hostgroup value with
    | some hg => (core.hostgroupAt hg).members.map Row.ofHost
    | none => []
  | none => core.host_list.map Row.ofHost

/-- The candidate sequence of the path that `TableServices::answerQuery` takes: the
services of the host named by `host_name` when that host exists; else the members of the
service group named by `groups`; else the services of the member hosts of the host group
named by `host_groups`, host after host; else `service_list`. -/
def TableServices.candidates (core : Core) (restriction : String → Option String) :
    List Row :=
  match (restriction "host_name").bind core.find_host with
  | some h => (core.hostAt h).services.map Row.ofService
  | none =>
    match restriction "groups" with
    | some value =>
      match core.find_servicegroup value with
      | some sg => (core.servicegroupAt sg).members.map Row.ofService
      | none => []
    | none =>
      match restriction "host_groups" with
      | some value =>
        match core.find_hostgroup value with
        | some hg =>
          ((core.hostgroupAt hg).members.flatMap
            (fun m => (core.hostAt m).services)).map Row.ofService
        | none => []
      | none => core.service_list.map Row.ofService

/-- The list of calls `calls` is the candidate sequence `candidates` cut off right after the
first call that was answered `false`: the rows passed are an initial segment of the
candidates, every call but the last was answered `true`, and the segment is the whole
candidate sequence unless the last call was answered `false`. -/
def CutAfterFirstStop (calls : List (Row × Bool)) (candidates : List Row) : Prop :=
  calls.map Prod.fst <+: candidates ∧
  (∀ c ∈ calls.dropLast, c.2 = true) ∧
  (calls.map Prod.fst = candidates ∨ ∃ r, calls.getLast? = some (r, false))

/-- The calls made when the rows of `rows` are offered to the callback one after the other,
starting in state `s`, until one is answered `false`. -/
def callsUntilStop {σ : Type} (query : Query σ) : σ → List Row → List (Row × Bool)
  | _, [] => []
  | s, r :: rest =>
    match query.processDataset s r with
    | (true, s') => (r, true) :: callsUntilStop query s' rest
    | (false, _) => [(r, false)]

/-- The state of the callback after the rows of `rows` were offered to it until one was
answered `false`. -/
def stateAfter {σ : Type} (query : Query σ) : σ → List Row → σ
  | s, [] => s
  | s, r :: rest =>
    match query.processDataset s r with
    | (true, s') => stateAfter query s' rest
    | (false, s') => s'

/-- Whether the callback answers `false` to one of the rows of `rows`, offered one after
the other starting in state `s`. -/
def stops {σ : Type} (query : Query σ) : σ → List Row → Bool
  | _, [] => false
  | s, r :: rest =>
    match query.processDataset s r with
    | (true, s') => stops query s' rest
    | (false, _) => true


/-! ## A small monitoring core to evaluate the definitions on -/

/-- Hosts of `exampleCore`: `alpha` with two services, in host group `G`; `beta` with one
service, in the host groups `G` and `G2`. -/
def exampleHostAt : HostPtr → host
  | 0 => { name := some "alpha", services := [0, 1], hostgroups_ptr := [0] }
  | 1 => { name := some "beta", services := [2], hostgroups_ptr := [0, 1] }
  | _ => {}

/-- Services of `exampleCore`; the service at address 3 has no host link. -/
def exampleServiceAt : ServicePtr → service
  | 0 => { description := some "ping", host_name := some "alpha", host_ptr := some 0,
           check_command_ptr := some { name := "check-mk-ping" }, check_interval := 1 }
  | 1 => { description := some "disk", host_name := some "alpha", host_ptr := some 0,
           check_command_ptr := some { name := "check_mk-df" } }
  | 2 => { description := some "ping", host_name := some "beta", host_ptr := some 1,
           check_command_ptr := some { name := "check-mk-ping" }, check_interval := 1 }
  | 3 => { description := some "orphan", check_command_ptr := some { name := "check_mk-df" } }
  | _ => {}

/-- Host groups of `exampleCore`. -/
def exampleHostgroupAt : HostGroupPtr → hostgroup
  | 0 => { group_name := "G", members := [0, 1] }
  | 1 => { group_name := "G2", members := [1] }
  | _ => {}

/-- Service groups of `exampleCore`. -/
def exampleServicegroupAt : ServiceGroupPtr → servicegroup
  | 0 => { group_name := "SG", members := [0, 2] }
  | _ => {}

/-- A monitoring core with two hosts, four services, two host groups and a service
group. -/
def exampleCore : Core where
  hostAt := exampleHostAt
  serviceAt := exampleServiceAt
  hostgroupAt := exampleHostgroupAt
  servicegroupAt := exampleServicegroupAt
  host_list := [0, 1]
  service_list := [0, 1, 2, 3]
  find_host := fun n => if n = "alpha" then some 0 else if n = "beta" then some 1 else none
  find_service := fun h d =>
    if h = "alpha" ∧ d = "ping" then some 0
    else if h = "alpha" ∧ d = "disk" then some 1
    else if h = "beta" ∧ d = "ping" then some 2
    else none
  find_hostgroup := fun n => if n = "G" then some 0 else if n = "G2" then some 1 else none
  find_servicegroup := fun n => if n = "SG" then some 0 else none
  interval_length := 60
  now := 1000

/-- A query without state whose callback always answers `true`, with the given
restrictions. -/
def collectAll (restriction : String → Option String) : Query Unit where
  stringValueRestrictionFor := restriction
  processDataset := fun s _ => (true, s)

/-- A query that counts the rows it is passed and answers `false` to the `n`-th. -/
def stopAt (n : Nat) (restriction : String → Option String) : Query Nat where
  stringValueRestrictionFor := restriction
  processDataset := fun k _ => (decide (k + 1 < n), k + 1)

/-- No restriction at all. -/
def noRestriction : String → Option String := fun _ => none

/-- The single restriction `column = value`. -/
def restrictTo (column value : String) : String → Option String :=
  fun c => if c = column then some value else none

/-! ## Host-group membership -/

/-- The names of the host groups in a host's own group list `hostgroups_ptr`, in list
order. -/
def hostGroupNames (core : Core) (h : HostPtr) : List String :=
  (core.hostAt h).hostgroups_ptr.map (fun g => (core.hostgroupAt g).group_name)

/-- Host-group membership is recorded consistently on both sides: a host of `host_list` is
in the member list of the group a name resolves to exactly when that name is in the host's
own group list; every member of a group is in `host_list`; no member list has a host
twice. -/
def ConsistentHostGroups (core : Core) : Prop :=
  (∀ (G : String) (h : HostPtr), h ∈ core.host_list →
    ((∃ g, core.find_hostgroup G = some g ∧ h ∈ (core.hostgroupAt g).members) ↔
      G ∈ hostGroupNames core h)) ∧
  (∀ (G : String) (g : HostGroupPtr), core.find_hostgroup G = some g →
    ∀ h ∈ (core.hostgroupAt g).members, h ∈ core.host_list) ∧
  (∀ (G : String) (g : HostGroupPtr), core.find_hostgroup G = some g →
    (core.hostgroupAt g).members.Nodup)

/-! ## Primary-key lookup -/

/-- The method `TableHosts::get`: `name` is the primary key. -/
def TableHosts.get (core : Core) (primary_key : String) : Row :=
  ⟨(core.find_host primary_key).map Addr.host⟩

/-- Modelled from the spec: `mk::splitCompositeKey2` of `StringUtils`, which is not among
the sources at hand. The spec has a composite key `outer;inner` "split on first occurrence
of `;`", into exactly two parts: the outer identity is what stands before the first `;`
and the inner discriminator is everything after it. For a key without `;` the spec names
no result; the model takes the whole key as outer part and an empty inner part. -/
def mk.splitCompositeKey2 (composite_key : String) : String × String :=
  (String.mk (composite_key.data.takeWhile (fun c => c != ';')),
    String.mk ((composite_key.data.dropWhile (fun c => c != ';')).drop 1))

/-- The method `TableServices::get`: `host_name;description` is the primary key. The
function `split` stands for `mk::splitCompositeKey2`. -/
def TableServices.get (split : String → String × String) (core : Core)
    (primary_key : String) : Row :=
  match split primary_key with
  | (host_name, description) => ⟨(core.find_service host_name description).map Addr.service⟩

/-- The core `exampleCore` with a service index that knows the single service with host
name `h` and description `d;e`, at address 3. -/
def semicolonCore : Core :=
  { exampleCore with
    find_service := fun h d => if h = "h" ∧ d = "d;e" then some 3 else none }

/-! ## Columns, offset chains and tables -/

/-- The enumeration `CommentColumn::verbosity` (`detail::CommentRenderer::verbosity`), with
the three levels the renderer distinguishes. -/
inductive CommentColumn.verbosity where
  | none
  | medium
  | full
  deriving DecidableEq, Repr

/-- The enumeration `DowntimeColumn::verbosity`, with the levels the tables register. -/
inductive DowntimeColumn.verbosity where
  | none
  | medium
  | full
  deriving DecidableEq, Repr

/-- The enumeration `ServiceListColumn::verbosity`
(`detail::ServiceListRenderer::verbosity`). -/
inductive ServiceListColumn.verbosity where
  | none
  | low
  | medium
  | full
  deriving DecidableEq, Repr

/-- The enumeration `AttributeKind`, with the kinds the tables register. -/
inductive AttributeKind where
  | custom_variables
  | tags
  | labels
  | label_sources
  deriving DecidableEq, Repr

/-- The C++ class a column is created from, with the parameters fixed at registration:
the default of `BoolColumn::Callback<T, Default>`, the attribute kind, the verbosity, the
value of a `Constant` column. -/
inductive ColumnClass where
  | StringColumn
  | StringColumnPerfData
  | IntColumn
  | IntConstant (value : Int)
  | BoolColumn (default_value : Bool)
  | TimeColumn
  | TimeConstant (value : Int)
  | DoubleColumn
  | ListColumn
  | BlobColumnFile
  | AttributeListAsIntColumn
  | AttributeListColumn
  | CustomVarsNamesColumn (kind : AttributeKind)
  | CustomVarsValuesColumn (kind : AttributeKind)
  | CustomVarsDictColumn (kind : AttributeKind)
  | DowntimeColumn (v : DowntimeColumn.verbosity)
  | CommentColumn (v : CommentColumn.verbosity)
  | HostListColumn
  | HostGroupsColumn
  | ServiceListColumn (v : ServiceListColumn.verbosity)
  | LogwatchListColumn
  deriving DecidableEq, Repr

/-- The class of a dynamic column, which builds a column from an argument string. -/
inductive DynamicColumnClass where
  | DynamicRRDColumn
  | DynamicFileColumn
  deriving DecidableEq, Repr

/-- The value kinds of columns. -/
inductive ColumnKind where
  | string
  | int
  | double
  | time
  | bool
  | list
  | dict
  | blob
  deriving DecidableEq, Repr

/-- The value kind of the columns of a class. -/
def ColumnClass.kind : ColumnClass → ColumnKind
  | .StringColumn => .string
  | .StringColumnPerfData => .string
  | .IntColumn => .int
  | .IntConstant _ => .int
  | .BoolColumn _ => .bool
  | .TimeColumn => .time
  | .TimeConstant _ => .time
  | .DoubleColumn => .double
  | .ListColumn => .list
  | .BlobColumnFile => .blob
  | .AttributeListAsIntColumn => .int
  | .AttributeListColumn => .list
  | .CustomVarsNamesColumn _ => .list
  | .CustomVarsValuesColumn _ => .list
  | .CustomVarsDictColumn _ => .dict
  | .DowntimeColumn _ => .list
  | .CommentColumn _ => .list
  | .HostListColumn => .list
  | .HostGroupsColumn => .list
  | .ServiceListColumn _ => .list
  | .LogwatchListColumn => .list

/-- The value kind of the columns a dynamic column builds: `RRDColumn` is a list column,
the column of `DynamicFileColumn` a blob column. -/
def DynamicColumnClass.kind : DynamicColumnClass → ColumnKind
  | .DynamicRRDColumn => .list
  | .DynamicFileColumn => .blob

/-- One step of an offset chain, a function from a row to a pointer. The tables use two
shapes: `[](Row r) { return &r.rawData<T>()->field; }`, the address of a member, which is
never null, and `[](Row r) { return r.rawData<service>()->host_ptr; }`, the value of the
pointer member `host_ptr`, which may be null. -/
inductive Shifter where
  | member (field : String)
  | host_ptr
  deriving DecidableEq, Repr

/-- The pointer a step returns for a row that points at `a`. -/
def Shifter.apply (core : Core) : Shifter → Addr → Option Addr
  | .member field, a => some (Addr.member a field)
  | .host_ptr, .service p => ((core.serviceAt p).host_ptr).map Addr.host
  | .host_ptr, _ => none

/-- The class `ColumnOffsets`: the steps of an offset chain, first step first. -/
structure ColumnOffsets where
  shifters : List Shifter
  deriving DecidableEq, Repr

/-- The empty chain `ColumnOffsets{}`. -/
def ColumnOffsets.empty : ColumnOffsets := ⟨[]⟩

/-- The method `ColumnOffsets::add`: the chain extended by one step at its end. -/
def ColumnOffsets.add (offsets : ColumnOffsets) (shifter : Shifter) : ColumnOffsets :=
  ⟨offsets.shifters ++ [shifter]⟩

/-- A registered column: its name, its class and the offset chain it is bound to. Its
extraction function is looked up by name when the column is evaluated, see
`Column.getValue`. -/
structure Column where
  name : String
  cls : ColumnClass
  offsets : ColumnOffsets
  deriving DecidableEq, Repr

/-- A registered dynamic column: its name, its class and the offset chain it hands to the
columns it builds. -/
structure DynamicColumn where
  name : String
  cls : DynamicColumnClass
  offsets : ColumnOffsets
  deriving DecidableEq, Repr

/-- The registry of a `Table`: its columns and its dynamic columns, in registration
order. -/
structure Table where
  columns : List Column
  dynamic_columns : List DynamicColumn
  deriving DecidableEq, Repr

/-- A table before any registration. -/
def Table.empty : Table := ⟨[], []⟩

/-- The method `Table::addColumn`. -/
def Table.addColumn (table : Table) (col : Column) : Table :=
  { table with columns := table.columns ++ [col] }

/-- The method `Table::addDynamicColumn`. -/
def Table.addDynamicColumn (table : Table) (dyncol : DynamicColumn) : Table :=
  { table with dynamic_columns := table.dynamic_columns ++ [dyncol] }

/-- The values columns yield. A time is in seconds since the epoch, a blob is present with
its bytes or absent. -/
inductive Value where
  | string (s : String)
  | int (n : Int)
  | double (x : ℚ)
  | time (t : Int)
  | list (entries : List String)
  | dict (entries : List (String × String))
  | blob (content : Option (List Nat))
  deriving DecidableEq, Repr

/-- Modelled from the spec: the neutral value of a value kind, which the column classes
(`Column.h` and the headers of the column classes, not among the sources at hand) yield
for an absent record. The spec names them: "empty string, zero, empty list, absent blob";
a boolean counts as the integer 0 or 1, and the neutral dictionary is the empty one. The
spec gives a kind one neutral value and does not make it depend on a parameter of the
class, so the second template argument of `BoolColumn::Callback<T, true>` plays no part
here. -/
def ColumnKind.neutral : ColumnKind → Value
  | .string => Value.string ""
  | .int => Value.int 0
  | .double => Value.double 0
  | .time => Value.time 0
  | .bool => Value.int 0
  | .list => Value.list []
  | .dict => Value.dict []
  | .blob => Value.blob none

/-- Modelled from the spec: `ColumnOffsets::shiftPointer` (`Column.h`, not among the
sources at hand). The spec: "resolve its Offset Chain step by step; the first step
resolving to absent halts resolution - no further step or extraction is attempted". The
steps are applied first to last; once the pointer is null the remaining steps are
skipped. -/
def ColumnOffsets.shiftPointer (core : Core) : List Shifter → Option Addr → Option Addr
  | [], p => p
  | _ :: _, none => none
  | shifter :: rest, some a => ColumnOffsets.shiftPointer core rest (shifter.apply core a)

/-- The outcome of evaluating a column on a row: the value, and how many times the
evaluation invoked the extraction function of the column. -/
structure Evaluation where
  value : Value
  extractions : Nat
  deriving DecidableEq, Repr

/-- Modelled from the spec: the evaluation of a column on a row (`Column::columnData` and
the `getValue` of the column classes, not among the sources at hand). The spec: when the
offset chain resolves to absent "the Column yields the neutral value for its kind"; "if
resolution succeeds, the extraction function is invoked on the resolved record reference
to produce the typed value". The extraction functions (the lambdas handed to the
`Callback` classes and the readers built into the other classes) are the parameter
`extract`, one per column name. -/
def Column.getValue (core : Core) (extract : String → Addr → Value) (col : Column)
    (row : Row) : Evaluation :=
  match ColumnOffsets.shiftPointer core col.offsets.shifters row.rawData with
  | none => ⟨col.cls.kind.neutral, 0⟩
  | some a => ⟨extract col.name a, 1⟩

/-! ## Registration of the columns -/

/-- The function `TableHosts::addColumns`: the registrations in source order. Where the
source has two variants of a registration under `#ifdef NAGIOS4`, both variants register
the same name with the same class on the same offsets, and the registration is listed
once. -/
def TableHosts.addColumns (table : Table) (pfx : String) (offsets : ColumnOffsets) : Table :=
  let offsets_custom_variables := offsets.add (Shifter.member "custom_variables")
  let offsets_services := offsets.add (Shifter.member "services")
  table
    |>.addColumn ⟨pfx ++ "name", .StringColumn, offsets⟩
    |>.addColumn ⟨pfx ++ "display_name", .StringColumn, offsets⟩
    |>.addColumn ⟨pfx ++ "alias", .StringColumn, offsets⟩
    |>.addColumn ⟨pfx ++ "address", .StringColumn, offsets⟩
    |>.addColumn ⟨pfx ++ "check_command", .StringColumn, offsets⟩
    |>.addColumn ⟨pfx ++ "check_command_expanded", .StringColumn, offsets⟩
    |>.addColumn ⟨pfx ++ "event_handler", .StringColumn, offsets⟩
    |>.addColumn ⟨pfx ++ "notification_period", .StringColumn, offsets⟩
    |>.addColumn ⟨pfx ++ "check_period", .StringColumn, offsets⟩
    |>.addColumn ⟨pfx ++ "service_period", .StringColumn, offsets_custom_variables⟩
    |>.addColumn ⟨pfx ++ "notes", .StringColumn, offsets⟩
    |>.addColumn ⟨pfx ++ "notes_expanded", .StringColumn, offsets⟩
    |>.addColumn ⟨pfx ++ "notes_url", .StringColumn, offsets⟩
    |>.addColumn ⟨pfx ++ "notes_url_expanded", .StringColumn, offsets⟩
    |>.addColumn ⟨pfx ++ "action_url", .StringColumn, offsets⟩
    |>.addColumn ⟨pfx ++ "action_url_expanded", .StringColumn, offsets⟩
    |>.addColumn ⟨pfx ++ "plugin_output", .StringColumn, offsets⟩
    |>.addColumn ⟨pfx ++ "perf_data", .StringColumnPerfData, offsets⟩
    |>.addColumn ⟨pfx ++ "icon_image", .StringColumn, offsets⟩
    |>.addColumn ⟨pfx ++ "icon_image_expanded", .StringColumn, offsets⟩
    |>.addColumn ⟨pfx ++ "icon_image_alt", .StringColumn, offsets⟩
    |>.addColumn ⟨pfx ++ "statusmap_image", .StringColumn, offsets⟩
    |>.addColumn ⟨pfx ++ "long_plugin_output", .StringColumn, offsets⟩
    |>.addColumn ⟨pfx ++ "initial_state", .IntColumn, offsets⟩
    |>.addColumn ⟨pfx ++ "max_check_attempts", .IntColumn, offsets⟩
    |>.addColumn ⟨pfx ++ "flap_detection_enabled", .IntColumn, offsets⟩
    |>.addColumn ⟨pfx ++ "check_freshness", .IntColumn, offsets⟩
    |>.addColumn ⟨pfx ++ "process_performance_data", .IntColumn, offsets⟩
    |>.addColumn ⟨pfx ++ "accept_passive_checks", .IntColumn, offsets⟩
    |>.addColumn ⟨pfx ++ "event_handler_enabled", .IntColumn, offsets⟩
    |>.addColumn ⟨pfx ++ "acknowledgement_type", .IntColumn, offsets⟩
    |>.addColumn ⟨pfx ++ "check_type", .IntColumn, offsets⟩
    |>.addColumn ⟨pfx ++ "last_state", .IntColumn, offsets⟩
    |>.addColumn ⟨pfx ++ "last_hard_state", .IntColumn, offsets⟩
    |>.addColumn ⟨pfx ++ "current_attempt", .IntColumn, offsets⟩
    |>.addColumn ⟨pfx ++ "last_notification", .TimeColumn, offsets⟩
    |>.addColumn ⟨pfx ++ "next_notification", .TimeColumn, offsets⟩
    |>.addColumn ⟨pfx ++ "next_check", .TimeColumn, offsets⟩
    |>.addColumn ⟨pfx ++ "last_hard_state_change", .TimeColumn, offsets⟩
    |>.addColumn ⟨pfx ++ "has_been_checked", .IntColumn, offsets⟩
    |>.addColumn ⟨pfx ++ "current_notification_number", .IntColumn, offsets⟩
    |>.addColumn ⟨pfx ++ "pending_flex_downtime", .IntColumn, offsets⟩
    |>.addColumn ⟨pfx ++ "total_services", .IntColumn, offsets⟩
    |>.addColumn ⟨pfx ++ "checks_enabled", .IntColumn, offsets⟩
    |>.addColumn ⟨pfx ++ "notifications_enabled", .IntColumn, offsets⟩
    |>.addColumn ⟨pfx ++ "acknowledged", .IntColumn, offsets⟩
    |>.addColumn ⟨pfx ++ "state", .IntColumn, offsets⟩
    |>.addColumn ⟨pfx ++ "state_type", .IntColumn, offsets⟩
    |>.addColumn ⟨pfx ++ "no_more_notifications", .IntColumn, offsets⟩
    |>.addColumn ⟨pfx ++ "check_flapping_recovery_notification", .IntColumn, offsets⟩
    |>.addColumn ⟨pfx ++ "last_check", .TimeColumn, offsets⟩
    |>.addColumn ⟨pfx ++ "last_state_change", .TimeColumn, offsets⟩
    |>.addColumn ⟨pfx ++ "last_time_up", .TimeColumn, offsets⟩
    |>.addColumn ⟨pfx ++ "last_time_down", .TimeColumn, offsets⟩
    |>.addColumn ⟨pfx ++ "last_time_unreachable", .TimeColumn, offsets⟩
    |>.addColumn ⟨pfx ++ "is_flapping", .IntColumn, offsets⟩
    |>.addColumn ⟨pfx ++ "scheduled_downtime_depth", .IntColumn, offsets⟩
    |>.addColumn ⟨pfx ++ "is_executing", .IntColumn, offsets⟩
    |>.addColumn ⟨pfx ++ "active_checks_enabled", .IntColumn, offsets⟩
    |>.addColumn ⟨pfx ++ "check_options", .IntColumn, offsets⟩
    |>.addColumn ⟨pfx ++ "obsess_over_host", .IntColumn, offsets⟩
    |>.addColumn ⟨pfx ++ "modified_attributes",
        .AttributeListAsIntColumn, offsets.add (Shifter.member "modified_attributes")⟩
    |>.addColumn ⟨pfx ++ "modified_attributes_list",
        .AttributeListColumn, offsets.add (Shifter.member "modified_attributes")⟩
    |>.addColumn ⟨pfx ++ "check_interval", .DoubleColumn, offsets⟩
    |>.addColumn ⟨pfx ++ "retry_interval", .DoubleColumn, offsets⟩
    |>.addColumn ⟨pfx ++ "notification_interval", .DoubleColumn, offsets⟩
    |>.addColumn ⟨pfx ++ "first_notification_delay", .DoubleColumn, offsets⟩
    |>.addColumn ⟨pfx ++ "low_flap_threshold", .DoubleColumn, offsets⟩
    |>.addColumn ⟨pfx ++ "high_flap_threshold", .DoubleColumn, offsets⟩
    |>.addColumn ⟨pfx ++ "x_3d", .DoubleColumn, offsets⟩
    |>.addColumn ⟨pfx ++ "y_3d", .DoubleColumn, offsets⟩
    |>.addColumn ⟨pfx ++ "z_3d", .DoubleColumn, offsets⟩
    |>.addColumn ⟨pfx ++ "latency", .DoubleColumn, offsets⟩
    |>.addColumn ⟨pfx ++ "execution_time", .DoubleColumn, offsets⟩
    |>.addColumn ⟨pfx ++ "percent_state_change", .DoubleColumn, offsets⟩
    |>.addColumn ⟨pfx ++ "in_notification_period", .BoolColumn true, offsets⟩
    |>.addColumn ⟨pfx ++ "in_check_period", .BoolColumn true, offsets⟩
    |>.addColumn ⟨pfx ++ "in_service_period", .BoolColumn true, offsets⟩
    |>.addColumn ⟨pfx ++ "contacts", .ListColumn, offsets⟩
    |>.addColumn ⟨pfx ++ "downtimes", .DowntimeColumn .none, offsets⟩
    |>.addColumn ⟨pfx ++ "downtimes_with_info", .DowntimeColumn .medium, offsets⟩
    |>.addColumn ⟨pfx ++ "downtimes_with_extra_info", .DowntimeColumn .full, offsets⟩
    |>.addColumn ⟨pfx ++ "comments", .CommentColumn .none, offsets⟩
    |>.addColumn ⟨pfx ++ "comments_with_info", .CommentColumn .medium, offsets⟩
    |>.addColumn ⟨pfx ++ "comments_with_extra_info", .CommentColumn .full, offsets⟩
    |>.addColumn ⟨pfx ++ "custom_variable_names",
        .CustomVarsNamesColumn .custom_variables, offsets_custom_variables⟩
    |>.addColumn ⟨pfx ++ "custom_variable_values",
        .CustomVarsValuesColumn .custom_variables, offsets_custom_variables⟩
    |>.addColumn ⟨pfx ++ "custom_variables",
        .CustomVarsDictColumn .custom_variables, offsets_custom_variables⟩
    |>.addColumn ⟨pfx ++ "tag_names", .CustomVarsNamesColumn .tags, offsets_custom_variables⟩
    |>.addColumn ⟨pfx ++ "tag_values", .CustomVarsValuesColumn .tags, offsets_custom_variables⟩
    |>.addColumn ⟨pfx ++ "tags", .CustomVarsDictColumn .tags, offsets_custom_variables⟩
    |>.addColumn ⟨pfx ++ "label_names", .CustomVarsNamesColumn .labels, offsets_custom_variables⟩
    |>.addColumn ⟨pfx ++ "label_values", .CustomVarsValuesColumn .labels, offsets_custom_variables⟩
    |>.addColumn ⟨pfx ++ "labels", .CustomVarsDictColumn .labels, offsets_custom_variables⟩
    |>.addColumn ⟨pfx ++ "label_source_names",
        .CustomVarsNamesColumn .label_sources, offsets_custom_variables⟩
    |>.addColumn ⟨pfx ++ "label_source_values",
        .CustomVarsValuesColumn .label_sources, offsets_custom_variables⟩
    |>.addColumn ⟨pfx ++ "label_sources",
        .CustomVarsDictColumn .label_sources, offsets_custom_variables⟩
    |>.addColumn ⟨pfx ++ "filename", .StringColumn, offsets_custom_variables⟩
    |>.addColumn ⟨pfx ++ "parents", .HostListColumn, offsets.add (Shifter.member "parent_hosts")⟩
    |>.addColumn ⟨pfx ++ "childs", .HostListColumn, offsets.add (Shifter.member "child_hosts")⟩
    |>.addDynamicColumn ⟨pfx ++ "rrddata", .DynamicRRDColumn, offsets⟩
    |>.addColumn ⟨pfx ++ "num_services", .IntColumn, offsets⟩
    |>.addColumn ⟨pfx ++ "worst_service_state", .IntColumn, offsets⟩
    |>.addColumn ⟨pfx ++ "num_services_ok", .IntColumn, offsets⟩
    |>.addColumn ⟨pfx ++ "num_services_warn", .IntColumn, offsets⟩
    |>.addColumn ⟨pfx ++ "num_services_crit", .IntColumn, offsets⟩
    |>.addColumn ⟨pfx ++ "num_services_unknown", .IntColumn, offsets⟩
    |>.addColumn ⟨pfx ++ "num_services_pending", .IntColumn, offsets⟩
    |>.addColumn ⟨pfx ++ "num_services_handled_problems", .IntColumn, offsets⟩
    |>.addColumn ⟨pfx ++ "num_services_unhandled_problems", .IntColumn, offsets⟩
    |>.addColumn ⟨pfx ++ "worst_service_hard_state", .IntColumn, offsets⟩
    |>.addColumn ⟨pfx ++ "num_services_hard_ok", .IntColumn, offsets⟩
    |>.addColumn ⟨pfx ++ "num_services_hard_warn", .IntColumn, offsets⟩
    |>.addColumn ⟨pfx ++ "num_services_hard_crit", .IntColumn, offsets⟩
    |>.addColumn ⟨pfx ++ "num_services_hard_unknown", .IntColumn, offsets⟩
    |>.addColumn ⟨pfx ++ "hard_state", .IntColumn, offsets⟩
    |>.addColumn ⟨pfx ++ "pnpgraph_present", .IntColumn, offsets⟩
    |>.addColumn ⟨pfx ++ "mk_inventory_last", .IntColumn, offsets⟩
    |>.addColumn ⟨pfx ++ "mk_inventory", .BlobColumnFile, offsets⟩
    |>.addColumn ⟨pfx ++ "mk_inventory_gz", .BlobColumnFile, offsets⟩
    |>.addColumn ⟨pfx ++ "structured_status", .BlobColumnFile, offsets⟩
    |>.addColumn ⟨pfx ++ "mk_logwatch_files", .LogwatchListColumn, offsets⟩
    |>.addDynamicColumn ⟨pfx ++ "mk_logwatch_file", .DynamicFileColumn, offsets⟩
    |>.addColumn ⟨pfx ++ "staleness", .DoubleColumn, offsets⟩
    |>.addColumn ⟨pfx ++ "groups", .HostGroupsColumn, offsets.add (Shifter.member "hostgroups_ptr")⟩
    |>.addColumn ⟨pfx ++ "contact_groups", .ListColumn, offsets⟩
    |>.addColumn ⟨pfx ++ "services", .ServiceListColumn .none, offsets_services⟩
    |>.addColumn ⟨pfx ++ "services_with_state", .ServiceListColumn .low, offsets_services⟩
    |>.addColumn ⟨pfx ++ "services_with_info", .ServiceListColumn .medium, offsets_services⟩
    |>.addColumn ⟨pfx ++ "services_with_fullstate", .ServiceListColumn .full, offsets_services⟩
    |>.addColumn ⟨pfx ++ "metrics", .ListColumn, offsets⟩

/-- The part of `TableServices::addColumns` before the test of `add_hosts`. -/
def TableServices.addColumnsBeforeHosts (table : Table) (pfx : String)
    (offsets : ColumnOffsets) : Table :=
  let offsets_custom_variables := offsets.add (Shifter.member "custom_variables")
  table
    |>.addColumn ⟨pfx ++ "description", .StringColumn, offsets⟩
    |>.addColumn ⟨pfx ++ "display_name", .StringColumn, offsets⟩
    |>.addColumn ⟨pfx ++ "check_command", .StringColumn, offsets⟩
    |>.addColumn ⟨pfx ++ "check_command_expanded", .StringColumn, offsets⟩
    |>.addColumn ⟨pfx ++ "event_handler", .StringColumn, offsets⟩
    |>.addColumn ⟨pfx ++ "plugin_output", .StringColumn, offsets⟩
    |>.addColumn ⟨pfx ++ "long_plugin_output", .StringColumn, offsets⟩
    |>.addColumn ⟨pfx ++ "perf_data", .StringColumnPerfData, offsets⟩
    |>.addColumn ⟨pfx ++ "notification_period", .StringColumn, offsets⟩
    |>.addColumn ⟨pfx ++ "check_period", .StringColumn, offsets⟩
    |>.addColumn ⟨pfx ++ "service_period", .StringColumn, offsets_custom_variables⟩
    |>.addColumn ⟨pfx ++ "notes", .StringColumn, offsets⟩
    |>.addColumn ⟨pfx ++ "notes_expanded", .StringColumn, offsets⟩
    |>.addColumn ⟨pfx ++ "notes_url", .StringColumn, offsets⟩
    |>.addColumn ⟨pfx ++ "notes_url_expanded", .StringColumn, offsets⟩
    |>.addColumn ⟨pfx ++ "action_url", .StringColumn, offsets⟩
    |>.addColumn ⟨pfx ++ "action_url_expanded", .StringColumn, offsets⟩
    |>.addColumn ⟨pfx ++ "icon_image", .StringColumn, offsets⟩
    |>.addColumn ⟨pfx ++ "icon_image_expanded", .StringColumn, offsets⟩
    |>.addColumn ⟨pfx ++ "icon_image_alt", .StringColumn, offsets⟩
    |>.addColumn ⟨pfx ++ "initial_state", .IntColumn, offsets⟩
    |>.addColumn ⟨pfx ++ "max_check_attempts", .IntColumn, offsets⟩
    |>.addColumn ⟨pfx ++ "current_attempt", .IntColumn, offsets⟩
    |>.addColumn ⟨pfx ++ "state", .IntColumn, offsets⟩
    |>.addColumn ⟨pfx ++ "has_been_checked", .IntColumn, offsets⟩
    |>.addColumn ⟨pfx ++ "last_state", .IntColumn, offsets⟩
    |>.addColumn ⟨pfx ++ "last_hard_state", .IntColumn, offsets⟩
    |>.addColumn ⟨pfx ++ "state_type", .IntColumn, offsets⟩
    |>.addColumn ⟨pfx ++ "check_type", .IntColumn, offsets⟩
    |>.addColumn ⟨pfx ++ "acknowledged", .IntColumn, offsets⟩
    |>.addColumn ⟨pfx ++ "acknowledgement_type", .IntColumn, offsets⟩
    |>.addColumn ⟨pfx ++ "no_more_notifications", .IntColumn, offsets⟩
    |>.addColumn ⟨pfx ++ "last_time_ok", .TimeColumn, offsets⟩
    |>.addColumn ⟨pfx ++ "last_time_warning", .TimeColumn, offsets⟩
    |>.addColumn ⟨pfx ++ "last_time_critical", .TimeColumn, offsets⟩
    |>.addColumn ⟨pfx ++ "last_time_unknown", .TimeColumn, offsets⟩
    |>.addColumn ⟨pfx ++ "last_check", .TimeColumn, offsets⟩
    |>.addColumn ⟨pfx ++ "next_check", .TimeColumn, offsets⟩
    |>.addColumn ⟨pfx ++ "last_notification", .TimeColumn, offsets⟩
    |>.addColumn ⟨pfx ++ "next_notification", .TimeColumn, offsets⟩
    |>.addColumn ⟨pfx ++ "current_notification_number", .IntColumn, offsets⟩
    |>.addColumn ⟨pfx ++ "last_state_change", .TimeColumn, offsets⟩
    |>.addColumn ⟨pfx ++ "last_hard_state_change", .TimeColumn, offsets⟩
    |>.addColumn ⟨pfx ++ "scheduled_downtime_depth", .IntColumn, offsets⟩
    |>.addColumn ⟨pfx ++ "is_flapping", .IntColumn, offsets⟩
    |>.addColumn ⟨pfx ++ "checks_enabled", .IntColumn, offsets⟩
    |>.addColumn ⟨pfx ++ "accept_passive_checks", .IntColumn, offsets⟩
    |>.addColumn ⟨pfx ++ "event_handler_enabled", .IntColumn, offsets⟩
    |>.addColumn ⟨pfx ++ "notifications_enabled", .IntColumn, offsets⟩
    |>.addColumn ⟨pfx ++ "process_performance_data", .IntColumn, offsets⟩
    |>.addColumn ⟨pfx ++ "is_executing", .IntColumn, offsets⟩
    |>.addColumn ⟨pfx ++ "active_checks_enabled", .IntColumn, offsets⟩
    |>.addColumn ⟨pfx ++ "check_options", .IntColumn, offsets⟩
    |>.addColumn ⟨pfx ++ "flap_detection_enabled", .IntColumn, offsets⟩
    |>.addColumn ⟨pfx ++ "check_freshness", .IntColumn, offsets⟩
    |>.addColumn ⟨pfx ++ "obsess_over_service", .IntColumn, offsets⟩
    |>.addColumn ⟨pfx ++ "modified_attributes",
        .AttributeListAsIntColumn, offsets.add (Shifter.member "modified_attributes")⟩
    |>.addColumn ⟨pfx ++ "modified_attributes_list",
        .AttributeListColumn, offsets.add (Shifter.member "modified_attributes")⟩
    |>.addColumn ⟨pfx ++ "hard_state", .IntColumn, offsets⟩
    |>.addColumn ⟨pfx ++ "pnpgraph_present", .IntColumn, offsets⟩
    |>.addColumn ⟨pfx ++ "staleness", .DoubleColumn, offsets⟩
    |>.addColumn ⟨pfx ++ "check_interval", .DoubleColumn, offsets⟩
    |>.addColumn ⟨pfx ++ "retry_interval", .DoubleColumn, offsets⟩
    |>.addColumn ⟨pfx ++ "notification_interval", .DoubleColumn, offsets⟩
    |>.addColumn ⟨pfx ++ "first_notification_delay", .DoubleColumn, offsets⟩
    |>.addColumn ⟨pfx ++ "low_flap_threshold", .DoubleColumn, offsets⟩
    |>.addColumn ⟨pfx ++ "high_flap_threshold", .DoubleColumn, offsets⟩
    |>.addColumn ⟨pfx ++ "latency", .DoubleColumn, offsets⟩
    |>.addColumn ⟨pfx ++ "execution_time", .DoubleColumn, offsets⟩
    |>.addColumn ⟨pfx ++ "percent_state_change", .DoubleColumn, offsets⟩
    |>.addColumn ⟨pfx ++ "in_check_period", .BoolColumn true, offsets⟩
    |>.addColumn ⟨pfx ++ "in_service_period", .BoolColumn true, offsets⟩
    |>.addColumn ⟨pfx ++ "in_notification_period", .BoolColumn true, offsets⟩
    |>.addColumn ⟨pfx ++ "contacts", .ListColumn, offsets⟩
    |>.addColumn ⟨pfx ++ "downtimes", .DowntimeColumn .none, offsets⟩
    |>.addColumn ⟨pfx ++ "downtimes_with_info", .DowntimeColumn .medium, offsets⟩
    |>.addColumn ⟨pfx ++ "downtimes_with_extra_info", .DowntimeColumn .full, offsets⟩
    |>.addColumn ⟨pfx ++ "comments", .CommentColumn .none, offsets⟩
    |>.addColumn ⟨pfx ++ "comments_with_info", .CommentColumn .medium, offsets⟩
    |>.addColumn ⟨pfx ++ "comments_with_extra_info", .CommentColumn .full, offsets⟩

/-- The part of `TableServices::addColumns` after the test of `add_hosts`. -/
def TableServices.addColumnsAfterHosts (table : Table) (pfx : String)
    (offsets : ColumnOffsets) : Table :=
  let offsets_custom_variables := offsets.add (Shifter.member "custom_variables")
  table
    |>.addColumn ⟨pfx ++ "custom_variable_names",
        .CustomVarsNamesColumn .custom_variables, offsets_custom_variables⟩
    |>.addColumn ⟨pfx ++ "custom_variable_values",
        .CustomVarsValuesColumn .custom_variables, offsets_custom_variables⟩
    |>.addColumn ⟨pfx ++ "custom_variables",
        .CustomVarsDictColumn .custom_variables, offsets_custom_variables⟩
    |>.addColumn ⟨pfx ++ "tag_names", .CustomVarsNamesColumn .tags, offsets_custom_variables⟩
    |>.addColumn ⟨pfx ++ "tag_values", .CustomVarsValuesColumn .tags, offsets_custom_variables⟩
    |>.addColumn ⟨pfx ++ "tags", .CustomVarsDictColumn .tags, offsets_custom_variables⟩
    |>.addColumn ⟨pfx ++ "label_names", .CustomVarsNamesColumn .labels, offsets_custom_variables⟩
    |>.addColumn ⟨pfx ++ "label_values", .CustomVarsValuesColumn .labels, offsets_custom_variables⟩
    |>.addColumn ⟨pfx ++ "labels", .CustomVarsDictColumn .labels, offsets_custom_variables⟩
    |>.addColumn ⟨pfx ++ "label_source_names",
        .CustomVarsNamesColumn .label_sources, offsets_custom_variables⟩
    |>.addColumn ⟨pfx ++ "label_source_values",
        .CustomVarsValuesColumn .label_sources, offsets_custom_variables⟩
    |>.addColumn ⟨pfx ++ "label_sources",
        .CustomVarsDictColumn .label_sources, offsets_custom_variables⟩
    |>.addColumn ⟨pfx ++ "groups", .ListColumn, offsets⟩
    |>.addColumn ⟨pfx ++ "contact_groups", .ListColumn, offsets⟩
    |>.addColumn ⟨pfx ++ "metrics", .ListColumn, offsets⟩
    |>.addDynamicColumn ⟨pfx ++ "rrddata", .DynamicRRDColumn, offsets⟩
    |>.addColumn ⟨pfx ++ "cached_at", .TimeConstant 0, ColumnOffsets.empty⟩
    |>.addColumn ⟨pfx ++ "cache_interval", .IntConstant 0, ColumnOffsets.empty⟩

/-- The function `TableServices::addColumns`: the native columns in source order, with the
columns of the hosts table registered in between, under the name prefix `host_` and on
the offsets extended by the step to `host_ptr`, when `add_hosts` is set. -/
def TableServices.addColumns (table : Table) (pfx : String) (offsets : ColumnOffsets)
    (add_hosts : Bool) : Table :=
  let table1 := TableServices.addColumnsBeforeHosts table pfx offsets
  let table2 :=
    if add_hosts then TableHosts.addColumns table1 "host_" (offsets.add Shifter.host_ptr)
    else table1
  TableServices.addColumnsAfterHosts table2 pfx offsets

/-- The constructor `TableHosts::TableHosts`, as far as it fills the registry. -/
def TableHosts.new : Table := TableHosts.addColumns Table.empty "" ColumnOffsets.empty

/-- The constructor `TableServices::TableServices`, as far as it fills the registry. -/
def TableServices.new : Table :=
  TableServices.addColumns Table.empty "" ColumnOffsets.empty true

/-! ## Native columns of the services table that follow the host link -/

/-- The test `strncmp(s, t, n) == 0` on strings without NUL character: the first `n`
characters of `s` and of `t` agree, where a string shorter than `n` counts whole. -/
def strncmp_eq (s t : String) (n : Nat) : Bool :=
  s.data.take n == t.data.take n

/-- The loop of `staleness` over the services of the host: the first service whose command
name starts with `check-mk` decides the result; without such a service the result is 1.
The result `none` stands for the dereference of a null `check_command_ptr`. -/
def stalenessOfCheckMkService (core : Core) (check_result_age : ℚ) :
    List ServicePtr → Option ℚ
  | [] =>
    -- Shouldn't happen! We always expect a check-mk service
    some 1
  | svc_member :: rest =>
    match (core.serviceAt svc_member).check_command_ptr with
    | none => none
    | some tmp_command =>
      if strncmp_eq tmp_command.name "check-mk" 8 then
        some (check_result_age /
          ((if (core.serviceAt svc_member).check_interval = 0 then 1
            else (core.serviceAt svc_member).check_interval) * core.interval_length))
      else stalenessOfCheckMkService core check_result_age rest

/-- The function `staleness` of `TableServices.cc`, in exact arithmetic. The result `none`
stands for the dereference of a null pointer (`check_command_ptr` or `host_ptr`), for
which the function has no result. -/
def TableServices.staleness (core : Core) (svc : service) : Option ℚ :=
  let check_result_age : ℚ := ((core.now - svc.last_check : Int) : ℚ)
  if svc.check_interval ≠ 0 then
    some (check_result_age / (svc.check_interval * core.interval_length))
  else
    -- check_mk PASSIVE CHECK without check interval uses the check
    -- interval of its check-mk service
    match svc.check_command_ptr with
    | none => none
    | some check_command =>
      if strncmp_eq check_command.name "check_mk-" 9 then
        match svc.host_ptr with
        | none => none
        | some h => stalenessOfCheckMkService core check_result_age (core.hostAt h).services
      else
        -- Other non-cmk passive and active checks without check_interval
        some (check_result_age / core.interval_length)

/-- The extraction function of the column `pnpgraph_present` of the services table:
`pnpgraph_present(mc, svc.host_ptr->name, svc.description)`. The function
`pnpgraph_present` of `pnp4nagios.h` is a parameter; it is handed the two `char *`
members as they are. The result `none` stands for the dereference of a null
`host_ptr`. -/
def TableServices.pnpgraph_present_column (pnpgraph_present : Option String → Option String → Int)
    (core : Core) (svc : service) : Option Int :=
  match svc.host_ptr with
  | none => none
  | some h => some (pnpgraph_present (core.hostAt h).name svc.description)

/-! ## Rendering of comments -/

/-- One entry of `CommentColumn::getEntries`, with the members the renderer reads. -/
structure CommentData where
  _id : Nat
  _author : String
  _comment : String
  _entry_type : Nat
  _entry_time : Int
  deriving DecidableEq, Repr

/-- A single value handed to `output` of a list or sublist renderer. -/
inductive Atom where
  | number (n : Nat)
  | string (s : String)
  | time (t : Int)
  deriving DecidableEq, Repr

/-- One top-level element of a rendered list: a value written by `ListRenderer::output`,
or a nested sub-sequence opened by a `SublistRenderer` with the values written to it. -/
inductive Element where
  | atom (a : Atom)
  | sublist (fields : List Atom)
  deriving DecidableEq, Repr

/-- The body of the loop of `detail::CommentRenderer::operator()` for one comment: what it
adds to the list `l` rendered so far. -/
def detail.CommentRenderer.step (verbosity_ : CommentColumn.verbosity) (l : List Element)
    (comment : CommentData) : List Element :=
  match verbosity_ with
  | .none => l ++ [Element.atom (Atom.number comment._id)]
  | .medium =>
    l ++ [Element.sublist
      [Atom.number comment._id, Atom.string comment._author, Atom.string comment._comment]]
  | .full =>
    l ++ [Element.sublist
      [Atom.number comment._id, Atom.string comment._author, Atom.string comment._comment,
        Atom.number comment._entry_type, Atom.time comment._entry_time]]

/-- The function `detail::CommentRenderer::operator()`: the list rendered for a row, where
`getEntries` stands for `CommentColumn::getEntries`. -/
def detail.CommentRenderer.call (verbosity_ : CommentColumn.verbosity)
    (getEntries : Row → List CommentData) (row : Row) : List Element :=
  (getEntries row).foldl (detail.CommentRenderer.step verbosity_) []

/-- The method `CommentColumn::output`, which ignores the user and the timezone offset. -/
def CommentColumn.output {Contact : Type} (verbosity_ : CommentColumn.verbosity)
    (getEntries : Row → List CommentData) (row : Row) (_auth_user : Option Contact)
    (_timezone_offset : Int) : List Element :=
  detail.CommentRenderer.call verbosity_ getEntries row

/-- The two comments of the spec's example: `{1,"a","x"}` and `{2,"b","y"}`. -/
def exampleComments : List CommentData :=
  [{ _id := 1, _author := "a", _comment := "x", _entry_type := 1, _entry_time := 1000 },
   { _id := 2, _author := "b", _comment := "y", _entry_type := 2, _entry_time := 2000 }]

/-- An extraction table for the examples: every extraction function returns the name of
its column as a string, which is not the neutral value of any kind. -/
def exampleExtract : String → Addr → Value := fun name _ => Value.string name

/-- The values written for one top-level element, in the order they were written: the
single value of an element written to the list itself, or the values of a sub-sequence. -/
def Element.fields : Element → List Atom
  | .atom a => [a]
  | .sublist fields => fields

/-- Whether a top-level element is a nested sub-sequence. -/
def Element.isSublist : Element → Bool
  | .atom _ => false
  | .sublist _ => true

/-- The fields `detail::CommentRenderer::operator()` emits for one comment at a verbosity
level, in emission order: what one pass of the loop body writes, starting from an empty
list. -/
def detail.CommentRenderer.fieldsOf (verbosity_ : CommentColumn.verbosity)
    (comment : CommentData) : List Atom :=
  (detail.CommentRenderer.step verbosity_ [] comment).flatMap Element.fields

/-! ## The column `groups` of the services table -/

/-- The extraction function of the column `groups` of the services table: the names of the
service groups of `svc.servicegroups_ptr` that the user is authorized for, collected in
list order. The function `is_authorized_for_service_group` of `auth.h` is a parameter, as
are the two authorization modes `mc->groupAuthorization()` and
`mc->serviceAuthorization()`; `auth_user` is the `const contact *` of the request. -/
def TableServices.groups {Auth Contact : Type}
    (is_authorized_for_service_group : Auth → Auth → ServiceGroupPtr → Contact → Bool)
    (groupAuthorization serviceAuthorization : Auth) (core : Core) (svc : service)
    (auth_user : Contact) : List String :=
  svc.servicegroups_ptr.foldl
    (fun group_names sg =>
      if is_authorized_for_service_group groupAuthorization serviceAuthorization sg auth_user
      then group_names ++ [(core.servicegroupAt sg).group_name]
      else group_names)
    []

/-- The restrictions `host_name = alpha` and `groups = nosuch` together; `exampleCore` has
the host `alpha` and no service group `nosuch`. -/
def hostNameAndUnknownGroup : String → Option String :=
  fun c => if c = "host_name" then some "alpha" else if c = "groups" then some "nosuch" else none

/-- The names registered in a table, those of the columns followed by those of the dynamic
columns. -/
def Table.names (table : Table) : List String :=
  table.columns.map (fun col => col.name) ++ table.dynamic_columns.map (fun dyn => dyn.name)

/-- A number computed from the characters of a name, by which the proofs that the names of
a table are pairwise distinct tell two names apart: names with different numbers are
different names. -/
def nameKey (name : String) : Nat :=
  name.data.foldl (fun key c => key * 256 + c.toNat) 0

/-! ## Queries with several restrictions -/

/-- The query `query` without its restriction on `column`. -/
def Query.withoutRestriction {σ : Type} (query : Query σ) (column : String) : Query σ :=
  { query with
    stringValueRestrictionFor := fun c =>
      if c = column then none else query.stringValueRestrictionFor c }

/-- The restrictions `host_name = alpha`, `groups = SG` and `host_groups = G2` together;
`exampleCore` resolves all three. -/
def allThreeRestrictions : String → Option String :=
  fun c =>
    if c = "host_name" then some "alpha"
    else if c = "groups" then some "SG"
    else if c = "host_groups" then some "G2"
    else none

/-- The restrictions `groups = SG` and `host_groups = G2` together. -/
def groupsAndHostGroups : String → Option String :=
  fun c => if c = "groups" then some "SG" else if c = "host_groups" then some "G2" else none

/-! ## The columns `state` and `hard_state` -/

/-- The extraction function of the column `state` of the hosts table. -/
def TableHosts.state (r : host) : Int := r.current_state

/-- The extraction function of the column `state` of the services table. -/
def TableServices.state (r : service) : Int := r.current_state

/-- The extraction function of the column `hard_state` of the hosts table. The constants
`HOST_UP` and `HARD_STATE` of `nagios.h` are parameters. -/
def TableHosts.hard_state (HOST_UP HARD_STATE : Int) (hst : host) : Int :=
  if hst.current_state = HOST_UP then 0
  else if hst.state_type = HARD_STATE then hst.current_state else hst.last_hard_state

/-- The extraction function of the column `hard_state` of the services table. The
constants `STATE_OK` and `HARD_STATE` of `nagios.h` are parameters. -/
def TableServices.hard_state (STATE_OK HARD_STATE : Int) (svc : service) : Int :=
  if svc.current_state = STATE_OK then 0
  else if svc.state_type = HARD_STATE then svc.current_state else svc.last_hard_state

/-! ## The column `contacts` -/

/-- The call `names.insert(name)` on a `std::unordered_set<std::string>`, which is kept as
the list of its elements: a name already in the set is not added again. The order in which
an unordered set hands out its elements is unspecified; the list has them in the order of
their first insertion. -/
def unorderedSetInsert (names : List String) (name : String) : List String :=
  if name ∈ names then names else names ++ [name]

/-- The loop `for (cm = first; cm != nullptr; cm = cm->next)
names.insert(cm->contact_ptr->name)` over a `contactsmember` list. -/
def insertContactNames (core : Core) (names : List String) (members : List ContactPtr) :
    List String :=
  members.foldl (fun names cm => unorderedSetInsert names (core.contactAt cm).name) names

/-- The body shared by the extraction functions of the two `contacts` columns: the names
of the direct contacts are inserted first, then the names of the members of each contact
group; the vector returned has the elements of the set. -/
def contactNames (core : Core) (contacts : List ContactPtr)
    (contact_groups : List ContactGroupPtr) : List String :=
  contact_groups.foldl
    (fun names cgm => insertContactNames core names (core.contactgroupAt cgm).members)
    (insertContactNames core [] contacts)

/-- The extraction function of the column `contacts` of the hosts table. -/
def TableHosts.contacts (core : Core) (hst : host) : List String :=
  contactNames core hst.contacts hst.contact_groups

/-- The extraction function of the column `contacts` of the services table. -/
def TableServices.contacts (core : Core) (r : service) : List String :=
  contactNames core r.contacts r.contact_groups

/-! ## Staleness -/

/-- The extraction function of the column `staleness` of the hosts table, in exact
arithmetic. -/
def TableHosts.staleness (core : Core) (hst : host) : ℚ :=
  ((core.now - hst.last_check : Int) : ℚ) /
    ((if hst.check_interval = 0 then 1 else hst.check_interval) * core.interval_length)

/-- What a staleness computation returns, before the division is carried out: the
quotient of a dividend by a divisor, or a constant. -/
inductive StalenessTerm where
  | quotient (dividend divisor : ℚ)
  | constant (value : ℚ)
  deriving DecidableEq, Repr

/-- The number a staleness term stands for. -/
def StalenessTerm.value : StalenessTerm → ℚ
  | .quotient dividend divisor => dividend / divisor
  | .constant value => value

/-- The extraction function of the column `staleness` of the hosts table with its division
left standing: the same computation as `TableHosts.staleness`. -/
def TableHosts.stalenessTerm (core : Core) (hst : host) : StalenessTerm :=
  StalenessTerm.quotient ((core.now - hst.last_check : Int) : ℚ)
    ((if hst.check_interval = 0 then 1 else hst.check_interval) * core.interval_length)

/-- The loop of `staleness` over the services of the host with its division left standing:
the same computation as `stalenessOfCheckMkService`. -/
def stalenessTermOfCheckMkService (core : Core) (check_result_age : ℚ) :
    List ServicePtr → Option StalenessTerm
  | [] => some (StalenessTerm.constant 1)
  | svc_member :: rest =>
    match (core.serviceAt svc_member).check_command_ptr with
    | none => none
    | some tmp_command =>
      if strncmp_eq tmp_command.name "check-mk" 8 then
        some (StalenessTerm.quotient check_result_age
          ((if (core.serviceAt svc_member).check_interval = 0 then 1
            else (core.serviceAt svc_member).check_interval) * core.interval_length))
      else stalenessTermOfCheckMkService core check_result_age rest

/-- The function `staleness` of `TableServices.cc` with its divisions left standing: the
same computation as `TableServices.staleness`, branch by branch. -/
def TableServices.stalenessTerm (core : Core) (svc : service) : Option StalenessTerm :=
  let check_result_age : ℚ := ((core.now - svc.last_check : Int) : ℚ)
  if svc.check_interval ≠ 0 then
    some (StalenessTerm.quotient check_result_age (svc.check_interval * core.interval_length))
  else
    match svc.check_command_ptr with
    | none => none
    | some check_command =>
      if strncmp_eq check_command.name "check_mk-" 9 then
        match svc.host_ptr with
        | none => none
        | some h =>
          stalenessTermOfCheckMkService core check_result_age (core.hostAt h).services
      else
        some (StalenessTerm.quotient check_result_age core.interval_length)

/-- Whether the name of the check command of the service at `p` starts with `start`; a
service without check command has no such name. -/
def commandNameStartsWith (core : Core) (start : String) (p : ServicePtr) : Bool :=
  match (core.serviceAt p).check_command_ptr with
  | some c => decide (start.data <+: c.name.data)
  | none => false

/-- A host of the examples: down, in a soft state, with last hard state 2, checked every
5 intervals, last at time 400. -/
def exampleHost : host :=
  { name := some "gamma", current_state := 1, state_type := 0, last_hard_state := 2,
    check_interval := 5, last_check := 400, contacts := [0, 1], contact_groups := [0, 1] }

/-- The core `exampleCore` with three contacts and two contact groups that overlap. -/
def contactCore : Core :=
  { exampleCore with
    contactAt := fun p =>
      match p with
      | 0 => { name := "ann" }
      | 1 => { name := "bob" }
      | _ => { name := "cid" }
    contactgroupAt := fun p =>
      match p with
      | 0 => { group_name := "admins", members := [1, 2] }
      | _ => { group_name := "ops", members := [2, 0] } }

/-! ## Lemmas on the scan loops -/

@[simp] theorem recording_restriction {σ : Type} (query : Query σ) :
    query.recording.stringValueRestrictionFor = query.stringValueRestrictionFor := rfl

theorem recording_processDataset {σ : Type} (query : Query σ) (s : σ)
    (log : List (Row × Bool)) (row : Row) :
    query.recording.processDataset (s, log) row =
      ((query.processDataset s row).1,
        ((query.processDataset s row).2, log ++ [(row, (query.processDataset s row).1)])) := rfl

theorem scanUntilStop_recording {σ α : Type} (query : Query σ) (mkRow : α → Row)
    (xs : List α) (s : σ) (log : List (Row × Bool)) :
    scanUntilStop query.recording mkRow xs (s, log) =
      (scanUntilStop query mkRow xs s, log ++ callsUntilStop query s (xs.map mkRow)) := by
  induction xs generalizing s log with
  | nil => simp [scanUntilStop, callsUntilStop]
  | cons x rest ih =>
    rcases h : query.processDataset s (mkRow x) with ⟨b, s'⟩
    cases b
    · simp [scanUntilStop, callsUntilStop, recording_processDataset, h]
    · simp [scanUntilStop, callsUntilStop, recording_processDataset, h, ih]

theorem scanServicesOrReturn_recording {σ : Type} (query : Query σ)
    (xs : List ServicePtr) (s : σ) (log : List (Row × Bool)) :
    scanServicesOrReturn query.recording xs (s, log) =
      (stops query s (xs.map Row.ofService),
        (stateAfter query s (xs.map Row.ofService),
          log ++ callsUntilStop query s (xs.map Row.ofService))) := by
  induction xs generalizing s log with
  | nil => simp [scanServicesOrReturn, callsUntilStop, stops, stateAfter]
  | cons x rest ih =>
    rcases h : query.processDataset s (Row.ofService x) with ⟨b, s'⟩
    cases b
    · simp [scanServicesOrReturn, callsUntilStop, stops, stateAfter,
        recording_processDataset, h]
    · simp [scanServicesOrReturn, callsUntilStop, stops, stateAfter,
        recording_processDataset, h, ih]

theorem callsUntilStop_append {σ : Type} (query : Query σ) (s : σ) (xs ys : List Row) :
    callsUntilStop query s (xs ++ ys) =
      callsUntilStop query s xs ++
        (if stops query s xs then [] else callsUntilStop query (stateAfter query s xs) ys) := by
  induction xs generalizing s with
  | nil => simp [callsUntilStop, stops, stateAfter]
  | cons x rest ih =>
    rcases h : query.processDataset s x with ⟨b, s'⟩
    cases b
    · simp [callsUntilStop, stops, stateAfter, h]
    · simp [callsUntilStop, stops, stateAfter, h, ih]

theorem scanMemberServices_recording {σ : Type} (core : Core) (query : Query σ)
    (ms : List HostPtr) (s : σ) (log : List (Row × Bool)) :
    (scanMemberServices core query.recording ms (s, log)).2 =
      log ++ callsUntilStop query s
        ((ms.flatMap (fun m => (core.hostAt m).services)).map Row.ofService) := by
  induction ms generalizing s log with
  | nil => simp [scanMemberServices, callsUntilStop]
  | cons m rest ih =>
    simp only [scanMemberServices, scanServicesOrReturn_recording, List.flatMap_cons,
      List.map_append, callsUntilStop_append]
    cases hstop : stops query s ((core.hostAt m).services.map Row.ofService)
    · simp [ih]
    · simp

theorem scanMemberServices_recording_state {σ : Type} (core : Core) (query : Query σ)
    (ms : List HostPtr) (s : σ) (log : List (Row × Bool)) :
    (scanMemberServices core query.recording ms (s, log)).1 =
      scanMemberServices core query ms s := by
  induction ms generalizing s log with
  | nil => simp [scanMemberServices]
  | cons m rest ih =>
    have hinner : ∀ (xs : List ServicePtr) (s : σ),
        scanServicesOrReturn query xs s =
          (stops query s (xs.map Row.ofService), stateAfter query s (xs.map Row.ofService)) := by
      intro xs
      induction xs with
      | nil => intro s; simp [scanServicesOrReturn, stops, stateAfter]
      | cons x rest ihx =>
        intro s
        rcases h : query.processDataset s (Row.ofService x) with ⟨b, s'⟩
        cases b
        · simp [scanServicesOrReturn, stops, stateAfter, h]
        · simp [scanServicesOrReturn, stops, stateAfter, h, ihx]
    simp only [scanMemberServices, scanServicesOrReturn_recording, hinner]
    cases hstop : stops query s ((core.hostAt m).services.map Row.ofService)
    · simp [ih]
    · simp

theorem callsUntilStop_cut {σ : Type} (query : Query σ) (s : σ) (rows : List Row) :
    CutAfterFirstStop (callsUntilStop query s rows) rows := by
  induction rows generalizing s with
  | nil => simp [CutAfterFirstStop, callsUntilStop]
  | cons r rest ih =>
    rcases h : query.processDataset s r with ⟨b, s'⟩
    cases b
    · simp [CutAfterFirstStop, callsUntilStop, h]
    · obtain ⟨h1, h2, h3⟩ := ih s'
      simp only [CutAfterFirstStop, callsUntilStop, h, List.map_cons]
      refine ⟨?_, ?_, ?_⟩
      · exact (List.prefix_cons_inj r).mpr h1
      · intro c hc
        cases hrest : callsUntilStop query s' rest with
        | nil => simp [hrest] at hc
        | cons c' cs =>
          rw [hrest, List.dropLast_cons₂] at hc
          rcases List.mem_cons.mp hc with rfl | hc
          · rfl
          · exact h2 c (by rw [hrest]; exact hc)
      · rcases h3 with h3 | ⟨r', h3⟩
        · left; rw [h3]
        · right
          refine ⟨r', ?_⟩
          cases hrest : callsUntilStop query s' rest with
          | nil => simp [hrest] at h3
          | cons c' cs =>
            rw [hrest] at h3
            simpa [List.getLast?_cons_cons] using h3

theorem hosts_calls_eq {σ : Type} (core : Core) (query : Query σ) (s : σ) :
    TableHosts.calls core query s =
      callsUntilStop query s (TableHosts.candidates core query.stringValueRestrictionFor) := by
  unfold TableHosts.calls TableHosts.answerQuery TableHosts.candidates
  rw [recording_restriction]
  rcases hg : query.stringValueRestrictionFor "groups" with _ | value
  · simp [scanUntilStop_recording]
  · rcases hf : core.find_hostgroup value with _ | g
    · simp [hf, callsUntilStop]
    · simp [hf, scanUntilStop_recording]

theorem services_calls_eq {σ : Type} (core : Core) (query : Query σ) (s : σ) :
    TableServices.calls core query s =
      callsUntilStop query s
        (TableServices.candidates core query.stringValueRestrictionFor) := by
  unfold TableServices.calls TableServices.answerQuery TableServices.candidates
    TableServices.answerQueryWithoutHost
  rw [recording_restriction]
  have hrest : (match query.stringValueRestrictionFor "groups" with
        | some value =>
          match core.find_servicegroup value with
          | some sg =>
            scanUntilStop query.recording Row.ofService (core.servicegroupAt sg).members (s, [])
          | none => (s, [])
        | none =>
          match query.stringValueRestrictionFor "host_groups" with
          | some value =>
            match core.find_hostgroup value with
            | some hg =>
              scanMemberServices core query.recording (core.hostgroupAt hg).members (s, [])
            | none => (s, [])
          | none => scanUntilStop query.recording Row.ofService core.service_list (s, [])).2 =
      callsUntilStop query s
        (match query.stringValueRestrictionFor "groups" with
          | some value =>
            match core.find_servicegroup value with
            | some sg => (core.servicegroupAt sg).members.map Row.ofService
            | none => []
          | none =>
            match query.stringValueRestrictionFor "host_groups" with
            | some value =>
              match core.find_hostgroup value with
              | some hg =>
                ((core.hostgroupAt hg).members.flatMap
                  (fun m => (core.hostAt m).services)).map Row.ofService
              | none => []
            | none => core.service_list.map Row.ofService) := by
    rcases hg : query.stringValueRestrictionFor "groups" with _ | value
    · rcases hh : query.stringValueRestrictionFor "host_groups" with _ | value
      · simp [scanUntilStop_recording]
      · rcases hf : core.find_hostgroup value with _ | g
        · simp [hf, callsUntilStop]
        · simp [hf, scanMemberServices_recording]
    · rcases hf : core.find_servicegroup value with _ | g
      · simp [hf, callsUntilStop]
      · simp [hf, scanUntilStop_recording]
  rcases hn : query.stringValueRestrictionFor "host_name" with _ | value
  · simpa using hrest
  · rcases hf : core.find_host value with _ | h
    · simpa [hf] using hrest
    · simp [hf, scanUntilStop_recording]

/-- Writing the calls down does not change the run: `answerQuery` leaves the callback of
the query in the same state with and without the record. -/
theorem answerQuery_recording_state {σ : Type} (core : Core) (query : Query σ) (s : σ) :
    (TableHosts.answerQuery core query.recording (s, [])).1 =
        TableHosts.answerQuery core query s ∧
      (TableServices.answerQuery core query.recording (s, [])).1 =
        TableServices.answerQuery core query s := by
  constructor
  · unfold TableHosts.answerQuery
    rw [recording_restriction]
    rcases hg : query.stringValueRestrictionFor "groups" with _ | value
    · simp [scanUntilStop_recording]
    · rcases hf : core.find_hostgroup value with _ | g
      · simp [hf]
      · simp [hf, scanUntilStop_recording]
  · have hrest : (TableServices.answerQueryWithoutHost core query.recording (s, [])).1 =
        TableServices.answerQueryWithoutHost core query s := by
      unfold TableServices.answerQueryWithoutHost
      rw [recording_restriction]
      rcases hg : query.stringValueRestrictionFor "groups" with _ | value
      · rcases hh : query.stringValueRestrictionFor "host_groups" with _ | value
        · simp [scanUntilStop_recording]
        · rcases hf : core.find_hostgroup value with _ | g
          · simp [hf]
          · simp [hf, scanMemberServices_recording_state]
      · rcases hf : core.find_servicegroup value with _ | g
        · simp [hf]
        · simp [hf, scanUntilStop_recording]
    unfold TableServices.answerQuery
    rw [recording_restriction]
    rcases hn : query.stringValueRestrictionFor "host_name" with _ | value
    · simpa using hrest
    · rcases hf : core.find_host value with _ | h
      · simpa [hf] using hrest
      · simp [hf, scanUntilStop_recording]

/-- C1: in `TableHosts::answerQuery` and `TableServices::answerQuery`, on every path and
for every callback, the rows passed to `processDataset` are the candidate sequence of the
path cut off right after the first row the callback answers `false` to: they are an
initial segment of the candidates, only the last call can have been answered `false`, and
unless it was, the whole candidate sequence is passed. -/
theorem answerQuery_stops_at_first_false {σ : Type} (core : Core) (query : Query σ) (s : σ) :
    CutAfterFirstStop (TableHosts.calls core query s)
        (TableHosts.candidates core query.stringValueRestrictionFor) ∧
      CutAfterFirstStop (TableServices.calls core query s)
        (TableServices.candidates core query.stringValueRestrictionFor) := by
  rw [hosts_calls_eq, services_calls_eq]
  exact ⟨callsUntilStop_cut _ _ _, callsUntilStop_cut _ _ _⟩


/-! ## Scans with a callback that always continues -/

theorem callsUntilStop_always {σ : Type} (query : Query σ)
    (hcont : ∀ s row, (query.processDataset s row).1 = true) (s : σ) (rows : List Row) :
    (callsUntilStop query s rows).map Prod.fst = rows := by
  induction rows generalizing s with
  | nil => simp [callsUntilStop]
  | cons r rest ih =>
    rcases h : query.processDataset s r with ⟨b, s'⟩
    have hb : b = true := by simpa [h] using hcont s r
    subst hb
    simp [callsUntilStop, h, ih]

/-- C2: without a restriction on an indexable column and with a callback that always
continues, `TableHosts::answerQuery` passes the elements of `host_list`, and
`TableServices::answerQuery` the elements of `service_list`, each once and in list order,
whatever the records hold (a service without host link included). -/
theorem full_scan_passes_whole_list {σ : Type} (core : Core) (query : Query σ) (s : σ)
    (hcont : ∀ s row, (query.processDataset s row).1 = true) :
    (query.stringValueRestrictionFor "groups" = none →
        (TableHosts.calls core query s).map Prod.fst = core.host_list.map Row.ofHost) ∧
      (query.stringValueRestrictionFor "host_name" = none →
        query.stringValueRestrictionFor "groups" = none →
        query.stringValueRestrictionFor "host_groups" = none →
        (TableServices.calls core query s).map Prod.fst =
          core.service_list.map Row.ofService) := by
  refine ⟨fun hg => ?_, fun hn hg hh => ?_⟩
  · rw [hosts_calls_eq, callsUntilStop_always query hcont]
    simp [TableHosts.candidates, hg]
  · rw [services_calls_eq, callsUntilStop_always query hcont]
    simp [TableServices.candidates, hn, hg, hh]

/-- Witness of C2 on `exampleCore`, whose service at address 3 has no host link: the full
scans pass both hosts and all four services. -/
theorem full_scan_passes_whole_list_witness :
    (exampleCore.serviceAt 3).host_ptr = none ∧
      (TableHosts.calls exampleCore (collectAll noRestriction) ()).map Prod.fst =
        [Row.ofHost 0, Row.ofHost 1] ∧
      (TableServices.calls exampleCore (collectAll noRestriction) ()).map Prod.fst =
        [Row.ofService 0, Row.ofService 1, Row.ofService 2, Row.ofService 3] :=
  ⟨rfl,
    (full_scan_passes_whole_list exampleCore (collectAll noRestriction) ()
      (fun _ _ => rfl)).1 rfl,
    (full_scan_passes_whole_list exampleCore (collectAll noRestriction) ()
      (fun _ _ => rfl)).2 rfl rfl rfl⟩

/-- C3: with a `groups` restriction that `find_hostgroup` resolves to the host group `hg`
and a callback that always continues, `TableHosts::answerQuery` passes the hosts of the
member list of `hg`, once per member entry and in member order; a host outside the
member list is not passed, and the calls do not depend on `host_list`. -/
theorem hostgroup_index_passes_members {σ : Type} (core : Core) (query : Query σ) (s : σ)
    (value : String) (hg : HostGroupPtr)
    (hcont : ∀ s row, (query.processDataset s row).1 = true)
    (hrestr : query.stringValueRestrictionFor "groups" = some value)
    (hfind : core.find_hostgroup value = some hg) :
    (TableHosts.calls core query s).map Prod.fst =
        (core.hostgroupAt hg).members.map Row.ofHost ∧
      (∀ h, h ∉ (core.hostgroupAt hg).members →
        Row.ofHost h ∉ (TableHosts.calls core query s).map Prod.fst) ∧
      (∀ other_list : List HostPtr,
        TableHosts.calls { core with host_list := other_list } query s =
          TableHosts.calls core query s) := by
  have hcalls : (TableHosts.calls core query s).map Prod.fst =
      (core.hostgroupAt hg).members.map Row.ofHost := by
    rw [hosts_calls_eq, callsUntilStop_always query hcont]
    simp [TableHosts.candidates, hrestr, hfind]
  refine ⟨hcalls, ?_, ?_⟩
  · intro h hh hmem
    rw [hcalls] at hmem
    rcases List.mem_map.mp hmem with ⟨h', hh', heq⟩
    have : h' = h := by simpa [Row.ofHost] using heq
    exact hh (this ▸ hh')
  · intro other_list
    rw [hosts_calls_eq, hosts_calls_eq]
    simp [TableHosts.candidates, hrestr, hfind]

/-- Witness of C3 on `exampleCore`: under `groups = G2` exactly the host `beta` is
passed. -/
theorem hostgroup_index_passes_members_witness :
    (TableHosts.calls exampleCore (collectAll (restrictTo "groups" "G2")) ()).map Prod.fst =
      [Row.ofHost 1] :=
  (hostgroup_index_passes_members exampleCore (collectAll (restrictTo "groups" "G2")) ()
    "G2" 1 (fun _ _ => rfl) (by decide) (by decide)).1

/-- C5: with a `host_name` restriction that `find_host` resolves to the host `h` and a
callback that always continues, `TableServices::answerQuery` passes the services of the
service list of `h`, in that list's order; a service outside that list is not passed,
and the calls do not depend on `service_list`. -/
theorem host_name_index_passes_services {σ : Type} (core : Core) (query : Query σ) (s : σ)
    (value : String) (h : HostPtr)
    (hcont : ∀ s row, (query.processDataset s row).1 = true)
    (hrestr : query.stringValueRestrictionFor "host_name" = some value)
    (hfind : core.find_host value = some h) :
    (TableServices.calls core query s).map Prod.fst =
        (core.hostAt h).services.map Row.ofService ∧
      (∀ p, p ∉ (core.hostAt h).services →
        Row.ofService p ∉ (TableServices.calls core query s).map Prod.fst) ∧
      (∀ other_list : List ServicePtr,
        TableServices.calls { core with service_list := other_list } query s =
          TableServices.calls core query s) := by
  have hcalls : (TableServices.calls core query s).map Prod.fst =
      (core.hostAt h).services.map Row.ofService := by
    rw [services_calls_eq, callsUntilStop_always query hcont]
    simp [TableServices.candidates, hrestr, hfind]
  refine ⟨hcalls, ?_, ?_⟩
  · intro p hp hmem
    rw [hcalls] at hmem
    rcases List.mem_map.mp hmem with ⟨p', hp', heq⟩
    have : p' = p := by simpa [Row.ofService] using heq
    exact hp (this ▸ hp')
  · intro other_list
    rw [services_calls_eq, services_calls_eq]
    simp [TableServices.candidates, hrestr, hfind]

/-- Witness of C5 on `exampleCore`: under `host_name = alpha` the two services of `alpha`
are passed, in the order of its service list. -/
theorem host_name_index_passes_services_witness :
    (TableServices.calls exampleCore (collectAll (restrictTo "host_name" "alpha")) ()).map
        Prod.fst = [Row.ofService 0, Row.ofService 1] :=
  (host_name_index_passes_services exampleCore (collectAll (restrictTo "host_name" "alpha"))
    () "alpha" 0 (fun _ _ => rfl) (by decide) (by decide)).1

/-! ## The host-group index against the full scan -/

theorem hosts_passed_by_full_scan {σ : Type} (core : Core) (query : Query σ) (s : σ)
    (hcont : ∀ s row, (query.processDataset s row).1 = true)
    (hrestr : query.stringValueRestrictionFor "groups" = none) (h : HostPtr) :
    Row.ofHost h ∈ (TableHosts.calls core query s).map Prod.fst ↔ h ∈ core.host_list := by
  rw [hosts_calls_eq, callsUntilStop_always query hcont]
  simp [TableHosts.candidates, hrestr, Row.ofHost]

theorem hosts_passed_by_group_index {σ : Type} (core : Core) (query : Query σ) (s : σ)
    (hcont : ∀ s row, (query.processDataset s row).1 = true) (G : String)
    (hrestr : query.stringValueRestrictionFor "groups" = some G) (h : HostPtr) :
    Row.ofHost h ∈ (TableHosts.calls core query s).map Prod.fst ↔
      ∃ g, core.find_hostgroup G = some g ∧ h ∈ (core.hostgroupAt g).members := by
  rw [hosts_calls_eq, callsUntilStop_always query hcont]
  rcases hf : core.find_hostgroup G with _ | g
  · simp [TableHosts.candidates, hrestr, hf]
  · simp [TableHosts.candidates, hrestr, hf, Row.ofHost]

/-- C4: in a monitoring state with consistent host-group membership, for every group
name `G` and callbacks that always continue, the hosts passed under the restriction
`groups = G` are the hosts the full scan passes whose own group list contains `G`. So a
host `H` in `G` but not in `G2` is passed under `groups = G`, is not passed under
`groups = G2`, and is passed, as the same row, by the full scan. -/
theorem hostgroup_index_agrees_with_full_scan {σ : Type} (core : Core)
    (hcons : ConsistentHostGroups core) (G : String) (queryG queryFull : Query σ) (s : σ)
    (hG : queryG.stringValueRestrictionFor "groups" = some G)
    (hFull : queryFull.stringValueRestrictionFor "groups" = none)
    (hcontG : ∀ s row, (queryG.processDataset s row).1 = true)
    (hcontFull : ∀ s row, (queryFull.processDataset s row).1 = true) :
    (∀ h : HostPtr,
      Row.ofHost h ∈ (TableHosts.calls core queryG s).map Prod.fst ↔
        (Row.ofHost h ∈ (TableHosts.calls core queryFull s).map Prod.fst ∧
          G ∈ hostGroupNames core h)) ∧
    (∀ (H : HostPtr) (G2 : String) (queryG2 : Query σ),
      queryG2.stringValueRestrictionFor "groups" = some G2 →
      (∀ s row, (queryG2.processDataset s row).1 = true) →
      H ∈ core.host_list → G ∈ hostGroupNames core H → G2 ∉ hostGroupNames core H →
      Row.ofHost H ∈ (TableHosts.calls core queryG s).map Prod.fst ∧
        Row.ofHost H ∉ (TableHosts.calls core queryG2 s).map Prod.fst ∧
        Row.ofHost H ∈ (TableHosts.calls core queryFull s).map Prod.fst) := by
  obtain ⟨hiff, hsub, _⟩ := hcons
  have hmain : ∀ h : HostPtr,
      Row.ofHost h ∈ (TableHosts.calls core queryG s).map Prod.fst ↔
        (Row.ofHost h ∈ (TableHosts.calls core queryFull s).map Prod.fst ∧
          G ∈ hostGroupNames core h) := by
    intro h
    rw [hosts_passed_by_group_index core queryG s hcontG G hG,
      hosts_passed_by_full_scan core queryFull s hcontFull hFull]
    constructor
    · rintro ⟨g, hf, hm⟩
      have hl : h ∈ core.host_list := hsub G g hf h hm
      exact ⟨hl, (hiff G h hl).mp ⟨g, hf, hm⟩⟩
    · rintro ⟨hl, hn⟩
      exact (hiff G h hl).mpr hn
  refine ⟨hmain, ?_⟩
  intro H G2 queryG2 hG2 hcontG2 hl hin hnot
  refine ⟨?_, ?_, ?_⟩
  · exact (hmain H).mpr
      ⟨(hosts_passed_by_full_scan core queryFull s hcontFull hFull H).mpr hl, hin⟩
  · rw [hosts_passed_by_group_index core queryG2 s hcontG2 G2 hG2]
    intro hex
    exact hnot ((hiff G2 H hl).mp hex)
  · exact (hosts_passed_by_full_scan core queryFull s hcontFull hFull H).mpr hl

theorem exampleCore_consistent : ConsistentHostGroups exampleCore := by
  refine ⟨?_, ?_, ?_⟩
  · intro G h hh
    have hh' : h = 0 ∨ h = 1 := by simpa [exampleCore] using hh
    by_cases h1 : G = "G"
    · subst h1
      rcases hh' with rfl | rfl <;>
        simp [exampleCore, hostGroupNames, exampleHostAt, exampleHostgroupAt]
    · by_cases h2 : G = "G2"
      · subst h2
        rcases hh' with rfl | rfl <;>
          simp [exampleCore, hostGroupNames, exampleHostAt, exampleHostgroupAt]
      · rcases hh' with rfl | rfl <;>
          simp [exampleCore, hostGroupNames, exampleHostAt, exampleHostgroupAt, h1, h2,
            Ne.symm h1, Ne.symm h2]
  · intro G g hf h hm
    by_cases h1 : G = "G"
    · subst h1
      have : g = 0 := by simpa [exampleCore] using hf.symm
      subst this
      simpa [exampleCore, exampleHostgroupAt] using hm
    · by_cases h2 : G = "G2"
      · subst h2
        have : g = 1 := by simpa [exampleCore] using hf.symm
        subst this
        have : h = 1 := by simpa [exampleCore, exampleHostgroupAt] using hm
        simp [exampleCore, this]
      · simp [exampleCore, h1, h2] at hf
  · intro G g hf
    by_cases h1 : G = "G"
    · subst h1
      have : g = 0 := by simpa [exampleCore] using hf.symm
      subst this
      simp [exampleCore, exampleHostgroupAt]
    · by_cases h2 : G = "G2"
      · subst h2
        have : g = 1 := by simpa [exampleCore] using hf.symm
        subst this
        simp [exampleCore, exampleHostgroupAt]
      · simp [exampleCore, h1, h2] at hf

/-- Witness of C4 on `exampleCore`: host `alpha` (address 0) is in `G` but not in `G2`; it
is passed under `groups = G`, not under `groups = G2`, and by the full scan. -/
theorem hostgroup_index_agrees_with_full_scan_witness :
    Row.ofHost 0 ∈ (TableHosts.calls exampleCore (collectAll (restrictTo "groups" "G")) ()).map
        Prod.fst ∧
      Row.ofHost 0 ∉
        (TableHosts.calls exampleCore (collectAll (restrictTo "groups" "G2")) ()).map
          Prod.fst ∧
      Row.ofHost 0 ∈ (TableHosts.calls exampleCore (collectAll noRestriction) ()).map
        Prod.fst :=
  (hostgroup_index_agrees_with_full_scan exampleCore exampleCore_consistent "G"
    (collectAll (restrictTo "groups" "G")) (collectAll noRestriction) () (by decide) rfl
    (fun _ _ => rfl) (fun _ _ => rfl)).2 0 "G2" (collectAll (restrictTo "groups" "G2"))
    (by decide) (fun _ _ => rfl) (by decide) (by decide) (by decide)

/-! ## Primary-key lookup -/

/-- C6: `TableHosts::get` returns the row of the host that `find_host` resolves the key to
and the null row when `find_host` resolves nothing; `TableServices::get` returns the null
row when `find_service` resolves nothing for the two parts of the key, however the key is
split. Both are total functions into `Row`, and neither result depends on `host_list`
or `service_list`. -/
theorem get_unresolved_key_is_null_row (core : Core) (split : String → String × String)
    (primary_key : String) :
    (∀ h, core.find_host primary_key = some h →
        TableHosts.get core primary_key = Row.ofHost h) ∧
      (core.find_host primary_key = none → TableHosts.get core primary_key = Row.null) ∧
      (core.find_service (split primary_key).1 (split primary_key).2 = none →
        TableServices.get split core primary_key = Row.null) ∧
      (∀ (hosts : List HostPtr) (services : List ServicePtr),
        TableHosts.get { core with host_list := hosts, service_list := services } primary_key =
            TableHosts.get core primary_key ∧
          TableServices.get split { core with host_list := hosts, service_list := services }
              primary_key = TableServices.get split core primary_key) := by
  refine ⟨?_, ?_, ?_, ?_⟩
  · intro h hf
    simp [TableHosts.get, hf, Row.ofHost]
  · intro hf
    simp [TableHosts.get, hf, Row.null]
  · intro hf
    simp [TableServices.get, hf, Row.null]
  · intro hosts services
    exact ⟨rfl, rfl⟩

/-- Witness of C6 on `exampleCore`: `alpha` is found, `gamma` and `gamma;ping` are not. -/
theorem get_unresolved_key_is_null_row_witness :
    TableHosts.get exampleCore "alpha" = Row.ofHost 0 ∧
      TableHosts.get exampleCore "gamma" = Row.null ∧
      TableServices.get mk.splitCompositeKey2 exampleCore "gamma;ping" = Row.null :=
  ⟨(get_unresolved_key_is_null_row exampleCore mk.splitCompositeKey2 "alpha").1 0
      (by decide),
    (get_unresolved_key_is_null_row exampleCore mk.splitCompositeKey2 "gamma").2.1
      (by decide),
    (get_unresolved_key_is_null_row exampleCore mk.splitCompositeKey2 "gamma;ping").2.2.1
      (by decide)⟩

theorem takeWhile_before_separator (l r : List Char) (h : ';' ∉ l) :
    (l ++ ';' :: r).takeWhile (fun c => c != ';') = l := by
  induction l with
  | nil => simp
  | cons c cs ih =>
    have hc : c ≠ ';' := fun e => h (by simp [e])
    have hcs : ';' ∉ cs := fun e => h (by simp [e])
    simp [List.takeWhile_cons, hc, ih hcs]

theorem dropWhile_before_separator (l r : List Char) (h : ';' ∉ l) :
    (l ++ ';' :: r).dropWhile (fun c => c != ';') = ';' :: r := by
  induction l with
  | nil => simp
  | cons c cs ih =>
    have hc : c ≠ ';' := fun e => h (by simp [e])
    have hcs : ';' ∉ cs := fun e => h (by simp [e])
    simp [List.dropWhile_cons, hc, ih hcs]

theorem key_with_separator_splits (k : String) (h : ';' ∈ k.data) :
    ∃ a b : String, k = a ++ ";" ++ b ∧ ';' ∉ a.data := by
  refine ⟨String.mk (k.data.takeWhile (fun c => c != ';')),
    String.mk ((k.data.dropWhile (fun c => c != ';')).drop 1), ?_, ?_⟩
  · have hne : k.data.dropWhile (fun c => c != ';') ≠ [] := by
      intro hnil
      have hall := List.dropWhile_eq_nil_iff.mp hnil
      simpa using hall ';' h
    obtain ⟨c, rest, hcons⟩ := List.exists_cons_of_ne_nil hne
    have hc : c = ';' := by
      have hhead := List.head_dropWhile_not (fun c => c != ';') k.data hne
      simpa [hcons] using hhead
    apply String.ext
    have hsplit := List.takeWhile_append_dropWhile (fun c => c != ';') k.data
    rw [hcons, hc] at hsplit
    simp [String.data_append, hcons, hsplit]
  · intro hmem
    have := List.mem_takeWhile_imp hmem
    simp at this

/-- C7: every primary key that contains a `;` has the form `a;b` with no `;` in `a`, so
that the `;` written out is the first of the key; for such a key `TableServices::get`
looks up `find_service(a, b)`, and later `;` stay inside `b`. -/
theorem get_splits_at_first_separator (core : Core) (a b : String) (h : ';' ∉ a.data) :
    TableServices.get mk.splitCompositeKey2 core (a ++ ";" ++ b) =
        ⟨(core.find_service a b).map Addr.service⟩ ∧
      (∀ k : String, ';' ∈ k.data → ∃ a' b' : String, k = a' ++ ";" ++ b' ∧ ';' ∉ a'.data) := by
  have hdata : (a ++ ";" ++ b).data = a.data ++ ';' :: b.data := by
    simp [String.data_append]
  refine ⟨?_, key_with_separator_splits⟩
  simp [TableServices.get, mk.splitCompositeKey2, hdata, takeWhile_before_separator _ _ h,
    dropWhile_before_separator _ _ h]

/-- Witness of C7: the key `h;d;e` is looked up as host `h`, description `d;e`. -/
theorem get_splits_at_first_separator_witness :
    ';' ∉ "h".data ∧
      TableServices.get mk.splitCompositeKey2 semicolonCore "h;d;e" = Row.ofService 3 :=
  ⟨by decide, (get_splits_at_first_separator semicolonCore "h" "d;e" (by decide)).1⟩

/-! ## Embedded host columns on a service without host -/

theorem shiftPointer_none (core : Core) (shifters : List Shifter) :
    ColumnOffsets.shiftPointer core shifters none = none := by
  cases shifters <;> rfl

theorem shiftPointer_host_ptr_absent (core : Core) (shifters : List Shifter) (p : ServicePtr)
    (hhead : shifters.head? = some Shifter.host_ptr)
    (hnull : (core.serviceAt p).host_ptr = none) :
    ColumnOffsets.shiftPointer core shifters (Row.ofService p).rawData = none := by
  cases shifters with
  | nil => simp at hhead
  | cons first rest =>
    have hfirst : first = Shifter.host_ptr := by simpa using hhead
    subst hfirst
    simp [ColumnOffsets.shiftPointer, Row.ofService, Shifter.apply, hnull, shiftPointer_none]

theorem getValue_host_ptr_absent (core : Core) (extract : String → Addr → Value)
    (col : Column) (p : ServicePtr)
    (hhead : col.offsets.shifters.head? = some Shifter.host_ptr)
    (hnull : (core.serviceAt p).host_ptr = none) :
    col.getValue core extract (Row.ofService p) = ⟨col.cls.kind.neutral, 0⟩ := by
  simp [Column.getValue, shiftPointer_host_ptr_absent core _ p hhead hnull]

set_option maxRecDepth 100000 in
theorem embedded_columns_start_at_host_ptr :
    ∀ col ∈ (TableHosts.addColumns Table.empty "host_"
        (ColumnOffsets.empty.add Shifter.host_ptr)).columns,
      col.offsets.shifters.head? = some Shifter.host_ptr := by
  decide

set_option maxRecDepth 100000 in
theorem embedded_dynamic_columns_start_at_host_ptr :
    ∀ dyn ∈ (TableHosts.addColumns Table.empty "host_"
        (ColumnOffsets.empty.add Shifter.host_ptr)).dynamic_columns,
      dyn.offsets.shifters.head? = some Shifter.host_ptr := by
  decide

set_option maxRecDepth 100000 in
theorem services_table_columns :
    TableServices.new.columns =
      (TableServices.addColumnsBeforeHosts Table.empty "" ColumnOffsets.empty).columns ++
        ((TableHosts.addColumns Table.empty "host_"
          (ColumnOffsets.empty.add Shifter.host_ptr)).columns ++
        (TableServices.addColumnsAfterHosts Table.empty "" ColumnOffsets.empty).columns) := by
  rfl

set_option maxRecDepth 100000 in
theorem services_table_dynamic_columns :
    TableServices.new.dynamic_columns =
      (TableServices.addColumnsBeforeHosts Table.empty "" ColumnOffsets.empty).dynamic_columns ++
        ((TableHosts.addColumns Table.empty "host_"
          (ColumnOffsets.empty.add Shifter.host_ptr)).dynamic_columns ++
        (TableServices.addColumnsAfterHosts Table.empty "" ColumnOffsets.empty).dynamic_columns) := by
  rfl

theorem embedded_columns_in_services_table :
    (∀ col ∈ (TableHosts.addColumns Table.empty "host_"
        (ColumnOffsets.empty.add Shifter.host_ptr)).columns,
      col ∈ TableServices.new.columns) ∧
    (∀ dyn ∈ (TableHosts.addColumns Table.empty "host_"
        (ColumnOffsets.empty.add Shifter.host_ptr)).dynamic_columns,
      dyn ∈ TableServices.new.dynamic_columns) := by
  constructor
  · intro col hcol
    rw [services_table_columns]
    exact List.mem_append_right _ (List.mem_append_left _ hcol)
  · intro dyn hdyn
    rw [services_table_dynamic_columns]
    exact List.mem_append_right _ (List.mem_append_left _ hdyn)

/-- C8: for a service row whose `host_ptr` is null, every column that
`TableHosts::addColumns` registers in the services table, under the prefix `host_` and on
the offsets extended by the step to `host_ptr`, yields the neutral value of its kind
without invoking an extraction function; the same holds for every column built on the
offsets of one of the dynamic columns registered there. -/
theorem embedded_host_columns_yield_neutral (core : Core) (extract : String → Addr → Value)
    (p : ServicePtr) (hnull : (core.serviceAt p).host_ptr = none) :
    (∀ col ∈ (TableHosts.addColumns Table.empty "host_"
        (ColumnOffsets.empty.add Shifter.host_ptr)).columns,
      col ∈ TableServices.new.columns ∧
        col.getValue core extract (Row.ofService p) = ⟨col.cls.kind.neutral, 0⟩) ∧
    (∀ dyn ∈ (TableHosts.addColumns Table.empty "host_"
        (ColumnOffsets.empty.add Shifter.host_ptr)).dynamic_columns,
      dyn ∈ TableServices.new.dynamic_columns ∧
        ∀ (name : String) (cls : ColumnClass),
          (Column.mk name cls dyn.offsets).getValue core extract (Row.ofService p) =
            ⟨cls.kind.neutral, 0⟩) := by
  refine ⟨fun col hcol => ⟨embedded_columns_in_services_table.1 col hcol, ?_⟩,
    fun dyn hdyn => ⟨embedded_columns_in_services_table.2 dyn hdyn, fun name cls => ?_⟩⟩
  · exact getValue_host_ptr_absent core extract col p
      (embedded_columns_start_at_host_ptr col hcol) hnull
  · exact getValue_host_ptr_absent core extract ⟨name, cls, dyn.offsets⟩ p
      (embedded_dynamic_columns_start_at_host_ptr dyn hdyn) hnull

set_option maxRecDepth 100000 in
theorem host_name_is_embedded :
    (⟨"host_name", ColumnClass.StringColumn, ⟨[Shifter.host_ptr]⟩⟩ : Column) ∈
      (TableHosts.addColumns Table.empty "host_"
        (ColumnOffsets.empty.add Shifter.host_ptr)).columns := by
  decide

/-- Witness of C8 on `exampleCore`: the service at address 3 has no host link, and its
column `host_name` yields the empty string without an extraction. -/
theorem embedded_host_columns_yield_neutral_witness :
    (exampleCore.serviceAt 3).host_ptr = none ∧
      (Column.mk "host_name" ColumnClass.StringColumn ⟨[Shifter.host_ptr]⟩).getValue exampleCore
        exampleExtract (Row.ofService 3) = ⟨Value.string "", 0⟩ :=
  ⟨rfl,
    ((embedded_host_columns_yield_neutral exampleCore exampleExtract 3 rfl).1
      ⟨"host_name", ColumnClass.StringColumn, ⟨[Shifter.host_ptr]⟩⟩ host_name_is_embedded).2⟩

/-! ## Native service columns on a service without host -/

/-- C9, evaluated at a failing input: the service at address 3 of `exampleCore` has no
host link, a check interval of zero and a command name starting with `check_mk-`. Its
columns `pnpgraph_present` and `staleness` have no value: both dereference the null
`host_ptr`. -/
theorem native_columns_dereference_absent_host :
    (exampleCore.serviceAt 3).host_ptr = none ∧
      (∀ pnpgraph_present : Option String → Option String → Int,
        TableServices.pnpgraph_present_column pnpgraph_present exampleCore
          (exampleCore.serviceAt 3) = none) ∧
      TableServices.staleness exampleCore (exampleCore.serviceAt 3) = none := by
  refine ⟨rfl, fun _ => rfl, ?_⟩
  simp [TableServices.staleness, exampleCore, exampleServiceAt, strncmp_eq]

/-! ## Rendering of comments -/

theorem commentRenderer_step_append (v : CommentColumn.verbosity) (l : List Element)
    (comment : CommentData) :
    detail.CommentRenderer.step v l comment = l ++ detail.CommentRenderer.step v [] comment := by
  cases v <;> simp [detail.CommentRenderer.step]

theorem commentRenderer_foldl_step (v : CommentColumn.verbosity) (l : List Element)
    (entries : List CommentData) :
    entries.foldl (detail.CommentRenderer.step v) l =
      l ++ entries.flatMap (fun comment => detail.CommentRenderer.step v [] comment) := by
  induction entries generalizing l with
  | nil => simp
  | cons comment rest ih =>
    rw [List.foldl_cons, ih, commentRenderer_step_append, List.flatMap_cons,
      List.append_assoc]

/-- C10, counterexample: at verbosity `none` the comments `{1,"a","x"}` and `{2,"b","y"}`
are not rendered as `[[1],[2]]`. -/
theorem comments_at_none_not_nested :
    detail.CommentRenderer.call CommentColumn.verbosity.none (fun _ => exampleComments)
        Row.null ≠
      [Element.sublist [Atom.number 1], Element.sublist [Atom.number 2]] := by
  decide

/-- C10, amended: at verbosity `none` every entry is rendered as one top-level element
holding its id, with no nested sub-sequence; the comments `{1,"a","x"}` and `{2,"b","y"}`
are rendered as `[1,2]`. -/
theorem comments_at_none_are_top_level_ids :
    (∀ (getEntries : Row → List CommentData) (row : Row),
      detail.CommentRenderer.call CommentColumn.verbosity.none getEntries row =
        (getEntries row).map (fun comment => Element.atom (Atom.number comment._id))) ∧
      detail.CommentRenderer.call CommentColumn.verbosity.none (fun _ => exampleComments)
          Row.null =
        [Element.atom (Atom.number 1), Element.atom (Atom.number 2)] := by
  refine ⟨fun getEntries row => ?_, by decide⟩
  rw [detail.CommentRenderer.call, commentRenderer_foldl_step]
  simp only [List.nil_append, detail.CommentRenderer.step]
  induction getEntries row with
  | nil => rfl
  | cons comment rest ih => simp [ih]

/-! ## The comment renderer at its three verbosity levels -/

set_option maxRecDepth 100000 in
theorem comment_columns_registered :
    ((⟨"comments", ColumnClass.CommentColumn CommentColumn.verbosity.none,
        ColumnOffsets.empty⟩ : Column) ∈ TableHosts.new.columns ∧
      (⟨"comments", ColumnClass.CommentColumn CommentColumn.verbosity.none,
        ColumnOffsets.empty⟩ : Column) ∈ TableServices.new.columns) ∧
    ((⟨"comments_with_info", ColumnClass.CommentColumn CommentColumn.verbosity.medium,
        ColumnOffsets.empty⟩ : Column) ∈ TableHosts.new.columns ∧
      (⟨"comments_with_info", ColumnClass.CommentColumn CommentColumn.verbosity.medium,
        ColumnOffsets.empty⟩ : Column) ∈ TableServices.new.columns) ∧
    ((⟨"comments_with_extra_info", ColumnClass.CommentColumn CommentColumn.verbosity.full,
        ColumnOffsets.empty⟩ : Column) ∈ TableHosts.new.columns ∧
      (⟨"comments_with_extra_info", ColumnClass.CommentColumn CommentColumn.verbosity.full,
        ColumnOffsets.empty⟩ : Column) ∈ TableServices.new.columns) := by
  decide

theorem commentRenderer_call_eq (v : CommentColumn.verbosity)
    (getEntries : Row → List CommentData) (row : Row) :
    detail.CommentRenderer.call v getEntries row =
      (getEntries row).flatMap (fun comment => detail.CommentRenderer.step v [] comment) := by
  rw [detail.CommentRenderer.call, commentRenderer_foldl_step, List.nil_append]

theorem flatMap_singleton_eq_map {α β : Type} (f : α → β) (l : List α) :
    l.flatMap (fun a => [f a]) = l.map f := by
  induction l with
  | nil => rfl
  | cons a rest ih => simp [ih]

/-- C11: at verbosity `none` the renderer emits for every entry only its id, as a
top-level element of the list: the rendered list is the list of the comment ids and none
of its elements is a nested sub-sequence, whereas at `medium` and at `full` every element
is a nested sub-sequence. The `comments` columns of both tables are registered at
`none`. -/
theorem comments_none_is_flat_id_list (getEntries : Row → List CommentData) (row : Row) :
    detail.CommentRenderer.call CommentColumn.verbosity.none getEntries row =
        (getEntries row).map (fun comment => Element.atom (Atom.number comment._id)) ∧
      (∀ e ∈ detail.CommentRenderer.call CommentColumn.verbosity.none getEntries row,
        e.isSublist = false) ∧
      (∀ e ∈ detail.CommentRenderer.call CommentColumn.verbosity.medium getEntries row,
        e.isSublist = true) ∧
      (∀ e ∈ detail.CommentRenderer.call CommentColumn.verbosity.full getEntries row,
        e.isSublist = true) ∧
      ((⟨"comments", ColumnClass.CommentColumn CommentColumn.verbosity.none,
          ColumnOffsets.empty⟩ : Column) ∈ TableHosts.new.columns ∧
        (⟨"comments", ColumnClass.CommentColumn CommentColumn.verbosity.none,
          ColumnOffsets.empty⟩ : Column) ∈ TableServices.new.columns) := by
  refine ⟨?_, ?_, ?_, ?_, comment_columns_registered.1⟩
  · rw [commentRenderer_call_eq]
    simp only [detail.CommentRenderer.step, List.nil_append]
    exact flatMap_singleton_eq_map _ _
  · intro e he
    rw [commentRenderer_call_eq] at he
    simp only [detail.CommentRenderer.step, List.nil_append, flatMap_singleton_eq_map] at he
    obtain ⟨comment, _, rfl⟩ := List.mem_map.mp he
    rfl
  · intro e he
    rw [commentRenderer_call_eq] at he
    simp only [detail.CommentRenderer.step, List.nil_append, flatMap_singleton_eq_map] at he
    obtain ⟨comment, _, rfl⟩ := List.mem_map.mp he
    rfl
  · intro e he
    rw [commentRenderer_call_eq] at he
    simp only [detail.CommentRenderer.step, List.nil_append, flatMap_singleton_eq_map] at he
    obtain ⟨comment, _, rfl⟩ := List.mem_map.mp he
    rfl

/-- C12: at verbosity `medium` every comment is rendered as its own nested sub-sequence
`[id, author, comment]`, in this field order; the comments `{1,"a","x"}` and `{2,"b","y"}`
are rendered as `[[1,"a","x"],[2,"b","y"]]`. The `comments_with_info` columns of both
tables are registered at `medium`. -/
theorem comments_medium_is_id_author_comment (getEntries : Row → List CommentData)
    (row : Row) :
    detail.CommentRenderer.call CommentColumn.verbosity.medium getEntries row =
        (getEntries row).map (fun comment =>
          Element.sublist [Atom.number comment._id, Atom.string comment._author,
            Atom.string comment._comment]) ∧
      detail.CommentRenderer.call CommentColumn.verbosity.medium (fun _ => exampleComments)
          Row.null =
        [Element.sublist [Atom.number 1, Atom.string "a", Atom.string "x"],
          Element.sublist [Atom.number 2, Atom.string "b", Atom.string "y"]] ∧
      ((⟨"comments_with_info", ColumnClass.CommentColumn CommentColumn.verbosity.medium,
          ColumnOffsets.empty⟩ : Column) ∈ TableHosts.new.columns ∧
        (⟨"comments_with_info", ColumnClass.CommentColumn CommentColumn.verbosity.medium,
          ColumnOffsets.empty⟩ : Column) ∈ TableServices.new.columns) := by
  refine ⟨?_, by decide, comment_columns_registered.2.1⟩
  rw [commentRenderer_call_eq]
  simp only [detail.CommentRenderer.step, List.nil_append]
  exact flatMap_singleton_eq_map _ _

/-- C13: at verbosity `full` every comment is rendered as its own nested sub-sequence of
five fields, in the order id, author, comment, entry type, entry time. The
`comments_with_extra_info` columns of both tables are registered at `full`. -/
theorem comments_full_is_five_fields (getEntries : Row → List CommentData) (row : Row) :
    detail.CommentRenderer.call CommentColumn.verbosity.full getEntries row =
        (getEntries row).map (fun comment =>
          Element.sublist [Atom.number comment._id, Atom.string comment._author,
            Atom.string comment._comment, Atom.number comment._entry_type,
            Atom.time comment._entry_time]) ∧
      (∀ e ∈ detail.CommentRenderer.call CommentColumn.verbosity.full getEntries row,
        e.isSublist = true ∧ e.fields.length = 5) ∧
      ((⟨"comments_with_extra_info", ColumnClass.CommentColumn CommentColumn.verbosity.full,
          ColumnOffsets.empty⟩ : Column) ∈ TableHosts.new.columns ∧
        (⟨"comments_with_extra_info", ColumnClass.CommentColumn CommentColumn.verbosity.full,
          ColumnOffsets.empty⟩ : Column) ∈ TableServices.new.columns) := by
  have hcall : detail.CommentRenderer.call CommentColumn.verbosity.full getEntries row =
      (getEntries row).map (fun comment =>
        Element.sublist [Atom.number comment._id, Atom.string comment._author,
          Atom.string comment._comment, Atom.number comment._entry_type,
          Atom.time comment._entry_time]) := by
    rw [commentRenderer_call_eq]
    simp only [detail.CommentRenderer.step, List.nil_append]
    exact flatMap_singleton_eq_map _ _
  refine ⟨hcall, ?_, comment_columns_registered.2.2⟩
  intro e he
  rw [hcall] at he
  obtain ⟨comment, _, rfl⟩ := List.mem_map.mp he
  exact ⟨rfl, rfl⟩

/-- C14: for every comment the emitted fields grow strictly with the verbosity level: at
`none` the single field is the id, which is also the first field at `medium` and at
`full`; the fields at `none` are a proper initial segment of those at `medium`, and the
fields at `medium` a proper initial segment of those at `full`. -/
theorem comment_fields_grow_with_verbosity (comment : CommentData) :
    detail.CommentRenderer.fieldsOf CommentColumn.verbosity.none comment =
        [Atom.number comment._id] ∧
      (detail.CommentRenderer.fieldsOf CommentColumn.verbosity.medium comment).head? =
        some (Atom.number comment._id) ∧
      (detail.CommentRenderer.fieldsOf CommentColumn.verbosity.full comment).head? =
        some (Atom.number comment._id) ∧
      (detail.CommentRenderer.fieldsOf CommentColumn.verbosity.none comment <+:
          detail.CommentRenderer.fieldsOf CommentColumn.verbosity.medium comment ∧
        (detail.CommentRenderer.fieldsOf CommentColumn.verbosity.none comment).length <
          (detail.CommentRenderer.fieldsOf CommentColumn.verbosity.medium comment).length) ∧
      (detail.CommentRenderer.fieldsOf CommentColumn.verbosity.medium comment <+:
          detail.CommentRenderer.fieldsOf CommentColumn.verbosity.full comment ∧
        (detail.CommentRenderer.fieldsOf CommentColumn.verbosity.medium comment).length <
          (detail.CommentRenderer.fieldsOf CommentColumn.verbosity.full comment).length) := by
  have hlen : ∀ v, (detail.CommentRenderer.fieldsOf v comment).length =
      match v with
      | .none => 1
      | .medium => 3
      | .full => 5 := by
    intro v
    cases v <;> rfl
  refine ⟨rfl, rfl, rfl, ⟨?_, by rw [hlen, hlen]; decide⟩, ⟨?_, by rw [hlen, hlen]; decide⟩⟩
  · exact ⟨[Atom.string comment._author, Atom.string comment._comment], rfl⟩
  · exact ⟨[Atom.number comment._entry_type, Atom.time comment._entry_time], rfl⟩

/-- C15: for every row and at every verbosity level the rendered list has one top-level
element per entry of `getEntries(row)`, and its `i`-th element is the element the loop
body writes for the `i`-th entry: no entry is reordered, dropped or duplicated. -/
theorem comments_rendered_entry_by_entry (v : CommentColumn.verbosity)
    (getEntries : Row → List CommentData) (row : Row) :
    (detail.CommentRenderer.call v getEntries row).length = (getEntries row).length ∧
      ∀ i : Nat,
        ((detail.CommentRenderer.call v getEntries row).get? i).map (fun e => [e]) =
          ((getEntries row).get? i).map (fun comment => detail.CommentRenderer.step v [] comment) := by
  have hone : ∀ comment : CommentData, ∃ e, detail.CommentRenderer.step v [] comment = [e] := by
    intro comment
    cases v <;> exact ⟨_, rfl⟩
  rw [commentRenderer_call_eq]
  induction getEntries row with
  | nil => simp
  | cons comment rest ih =>
    obtain ⟨e, he⟩ := hone comment
    obtain ⟨hlen, hget⟩ := ih
    refine ⟨?_, ?_⟩
    · simp [List.flatMap_cons, he, hlen]
    · intro i
      cases i with
      | zero => simp [List.flatMap_cons, he]
      | succ j => simpa [List.flatMap_cons, he] using hget j

/-! ## The column `groups` of the services table -/

theorem groups_foldl_eq {Auth Contact : Type}
    (is_authorized_for_service_group : Auth → Auth → ServiceGroupPtr → Contact → Bool)
    (groupAuthorization serviceAuthorization : Auth) (core : Core) (auth_user : Contact)
    (sgs : List ServiceGroupPtr) (group_names : List String) :
    sgs.foldl
        (fun group_names sg =>
          if is_authorized_for_service_group groupAuthorization serviceAuthorization sg
              auth_user
          then group_names ++ [(core.servicegroupAt sg).group_name]
          else group_names)
        group_names =
      group_names ++
        (sgs.filter (fun sg =>
          is_authorized_for_service_group groupAuthorization serviceAuthorization sg
            auth_user)).map (fun sg => (core.servicegroupAt sg).group_name) := by
  induction sgs generalizing group_names with
  | nil => simp
  | cons sg rest ih =>
    rw [List.foldl_cons, ih]
    by_cases h : is_authorized_for_service_group groupAuthorization serviceAuthorization sg
        auth_user = true
    · simp [h, List.filter_cons]
    · simp [h, List.filter_cons]

/-- C16: for every service and every user the value of the column `groups` is made of the
names of exactly those groups of the service's service-group list that
`is_authorized_for_service_group` accepts for the user, in the order of that list: it is
a subsequence of the list of all group names, every authorized group is in it, and
every entry of it comes from an authorized group. -/
theorem service_groups_are_the_authorized_ones {Auth Contact : Type}
    (is_authorized_for_service_group : Auth → Auth → ServiceGroupPtr → Contact → Bool)
    (groupAuthorization serviceAuthorization : Auth) (core : Core) (svc : service)
    (auth_user : Contact) :
    TableServices.groups is_authorized_for_service_group groupAuthorization
        serviceAuthorization core svc auth_user =
      (svc.servicegroups_ptr.filter (fun sg =>
        is_authorized_for_service_group groupAuthorization serviceAuthorization sg
          auth_user)).map (fun sg => (core.servicegroupAt sg).group_name) ∧
    (TableServices.groups is_authorized_for_service_group groupAuthorization
        serviceAuthorization core svc auth_user).Sublist
      (svc.servicegroups_ptr.map (fun sg => (core.servicegroupAt sg).group_name)) ∧
    (∀ sg ∈ svc.servicegroups_ptr,
      is_authorized_for_service_group groupAuthorization serviceAuthorization sg
          auth_user = true →
        (core.servicegroupAt sg).group_name ∈
          TableServices.groups is_authorized_for_service_group groupAuthorization
            serviceAuthorization core svc auth_user) ∧
    (∀ name ∈ TableServices.groups is_authorized_for_service_group groupAuthorization
        serviceAuthorization core svc auth_user,
      ∃ sg ∈ svc.servicegroups_ptr,
        is_authorized_for_service_group groupAuthorization serviceAuthorization sg
            auth_user = true ∧
          (core.servicegroupAt sg).group_name = name) := by
  have hval : TableServices.groups is_authorized_for_service_group groupAuthorization
      serviceAuthorization core svc auth_user =
      (svc.servicegroups_ptr.filter (fun sg =>
        is_authorized_for_service_group groupAuthorization serviceAuthorization sg
          auth_user)).map (fun sg => (core.servicegroupAt sg).group_name) := by
    rw [TableServices.groups, groups_foldl_eq, List.nil_append]
  refine ⟨hval, ?_, ?_, ?_⟩
  · rw [hval]
    exact (List.filter_sublist _).map _
  · intro sg hsg hauth
    rw [hval]
    exact List.mem_map.mpr ⟨sg, List.mem_filter.mpr ⟨hsg, hauth⟩, rfl⟩
  · intro name hname
    rw [hval] at hname
    obtain ⟨sg, hsg, rfl⟩ := List.mem_map.mp hname
    obtain ⟨hmem, hauth⟩ := List.mem_filter.mp hsg
    exact ⟨sg, hmem, hauth, rfl⟩

/-! ## The host-group index of the services table and unresolved groups -/

theorem services_candidates_host_groups (core : Core) (restriction : String → Option String)
    (value : String) (hg : HostGroupPtr)
    (hname : (restriction "host_name").bind core.find_host = none)
    (hgroups : restriction "groups" = none)
    (hrestr : restriction "host_groups" = some value)
    (hfind : core.find_hostgroup value = some hg) :
    TableServices.candidates core restriction =
      ((core.hostgroupAt hg).members.flatMap
        (fun m => (core.hostAt m).services)).map Row.ofService := by
  simp [TableServices.candidates, hname, hgroups, hrestr, hfind]

/-- C19: with a `host_groups` restriction that resolves to the host group `hg`, no `groups`
restriction and no `host_name` restriction that resolves to a host, the candidates of
`TableServices::answerQuery` are the service lists of the members of `hg`, concatenated in
member order: for every callback the rows passed are that sequence cut off after the first
`false`, a callback that always continues is passed all of it, and a service that is in
the service list of no member is never passed. -/
theorem host_groups_index_passes_member_services {σ : Type} (core : Core) (query : Query σ)
    (s : σ) (value : String) (hg : HostGroupPtr)
    (hname : (query.stringValueRestrictionFor "host_name").bind core.find_host = none)
    (hgroups : query.stringValueRestrictionFor "groups" = none)
    (hrestr : query.stringValueRestrictionFor "host_groups" = some value)
    (hfind : core.find_hostgroup value = some hg) :
    CutAfterFirstStop (TableServices.calls core query s)
        (((core.hostgroupAt hg).members.flatMap
          (fun m => (core.hostAt m).services)).map Row.ofService) ∧
      ((∀ s row, (query.processDataset s row).1 = true) →
        (TableServices.calls core query s).map Prod.fst =
          ((core.hostgroupAt hg).members.flatMap
            (fun m => (core.hostAt m).services)).map Row.ofService) ∧
      (∀ p : ServicePtr,
        (∀ m ∈ (core.hostgroupAt hg).members, p ∉ (core.hostAt m).services) →
        Row.ofService p ∉ (TableServices.calls core query s).map Prod.fst) := by
  have hcand := services_candidates_host_groups core query.stringValueRestrictionFor value hg
    hname hgroups hrestr hfind
  have hcut : CutAfterFirstStop (TableServices.calls core query s)
      (((core.hostgroupAt hg).members.flatMap
        (fun m => (core.hostAt m).services)).map Row.ofService) := by
    rw [← hcand, services_calls_eq]
    exact callsUntilStop_cut _ _ _
  refine ⟨hcut, ?_, ?_⟩
  · intro hcont
    rw [services_calls_eq, callsUntilStop_always query hcont, hcand]
  · intro p hp hmem
    have hin := hcut.1.subset hmem
    obtain ⟨p', hp', heq⟩ := List.mem_map.mp hin
    have hpp : p' = p := by simpa [Row.ofService] using heq
    subst hpp
    obtain ⟨m, hm, hpm⟩ := List.mem_flatMap.mp hp'
    exact hp m hm hpm

/-- Witness of C19 on `exampleCore`: under `host_groups = G2`, whose only member is `beta`,
the one service of `beta` is passed. -/
theorem host_groups_index_passes_member_services_witness :
    (TableServices.calls exampleCore (collectAll (restrictTo "host_groups" "G2")) ()).map
        Prod.fst = [Row.ofService 2] :=
  (host_groups_index_passes_member_services exampleCore
    (collectAll (restrictTo "host_groups" "G2")) () "G2" 1 (by decide) (by decide) (by decide)
    (by decide)).2.1 (fun _ _ => rfl)

/-- C20, counterexample: on `exampleCore` the query with the restrictions
`host_name = alpha` and `groups = nosuch` names a service group the core does not resolve,
and `TableServices::answerQuery` passes the two services of `alpha`. -/
theorem unresolved_groups_beside_host_name_passes_rows :
    hostNameAndUnknownGroup "groups" = some "nosuch" ∧
      exampleCore.find_servicegroup "nosuch" = none ∧
      (TableServices.calls exampleCore (collectAll hostNameAndUnknownGroup) ()).map Prod.fst =
        [Row.ofService 0, Row.ofService 1] := by
  decide

/-- C20, amended: when a group restriction names a group the core does not resolve,
`answerQuery` passes no row and leaves the query state as it was, whatever `host_list` and
`service_list` hold: for `TableHosts` with an unresolved `groups` value, and for
`TableServices`, provided no `host_name` restriction resolves to a host, with an
unresolved `groups` value or, without `groups` restriction, an unresolved `host_groups`
value. -/
theorem unresolved_group_passes_no_row {σ : Type} (core : Core) (query : Query σ) (s : σ)
    (value : String) :
    (query.stringValueRestrictionFor "groups" = some value →
      core.find_hostgroup value = none →
      TableHosts.calls core query s = [] ∧ TableHosts.answerQuery core query s = s) ∧
    ((query.stringValueRestrictionFor "host_name").bind core.find_host = none →
      query.stringValueRestrictionFor "groups" = some value →
      core.find_servicegroup value = none →
      TableServices.calls core query s = [] ∧ TableServices.answerQuery core query s = s) ∧
    ((query.stringValueRestrictionFor "host_name").bind core.find_host = none →
      query.stringValueRestrictionFor "groups" = none →
      query.stringValueRestrictionFor "host_groups" = some value →
      core.find_hostgroup value = none →
      TableServices.calls core query s = [] ∧ TableServices.answerQuery core query s = s) := by
  refine ⟨?_, ?_, ?_⟩
  · intro hrestr hfind
    constructor
    · rw [hosts_calls_eq]
      simp [TableHosts.candidates, hrestr, hfind, callsUntilStop]
    · simp [TableHosts.answerQuery, hrestr, hfind]
  · intro hname hrestr hfind
    constructor
    · rw [services_calls_eq]
      simp [TableServices.candidates, hname, hrestr, hfind, callsUntilStop]
    · rcases hn : query.stringValueRestrictionFor "host_name" with _ | name
      · simp [TableServices.answerQuery, TableServices.answerQueryWithoutHost, hn, hrestr,
          hfind]
      · have hf : core.find_host name = none := by simpa [hn] using hname
        simp [TableServices.answerQuery, TableServices.answerQueryWithoutHost, hn, hf,
          hrestr, hfind]
  · intro hname hgroups hrestr hfind
    constructor
    · rw [services_calls_eq]
      simp [TableServices.candidates, hname, hgroups, hrestr, hfind, callsUntilStop]
    · rcases hn : query.stringValueRestrictionFor "host_name" with _ | name
      · simp [TableServices.answerQuery, TableServices.answerQueryWithoutHost, hn, hgroups,
          hrestr, hfind]
      · have hf : core.find_host name = none := by simpa [hn] using hname
        simp [TableServices.answerQuery, TableServices.answerQueryWithoutHost, hn, hf,
          hgroups, hrestr, hfind]

/-- Witness of C20 on `exampleCore`, which has hosts and services but neither a host group
nor a service group `nosuch`: no row is passed under `groups = nosuch` by either table, nor
by the services table under `host_groups = nosuch`. -/
theorem unresolved_group_passes_no_row_witness :
    TableHosts.calls exampleCore (collectAll (restrictTo "groups" "nosuch")) () = [] ∧
      TableServices.calls exampleCore (collectAll (restrictTo "groups" "nosuch")) () = [] ∧
      TableServices.calls exampleCore (collectAll (restrictTo "host_groups" "nosuch")) () =
        [] :=
  ⟨((unresolved_group_passes_no_row exampleCore (collectAll (restrictTo "groups" "nosuch")) ()
      "nosuch").1 (by decide) (by decide)).1,
    ((unresolved_group_passes_no_row exampleCore (collectAll (restrictTo "groups" "nosuch")) ()
      "nosuch").2.1 (by decide) (by decide) (by decide)).1,
    ((unresolved_group_passes_no_row exampleCore
      (collectAll (restrictTo "host_groups" "nosuch")) () "nosuch").2.2 (by decide)
      (by decide) (by decide) (by decide)).1⟩

/-! ## Names of the registered columns -/

set_option maxRecDepth 100000 in
theorem hosts_addColumns_appends_columns (p : String) (offsets : ColumnOffsets)
    (dyns : List DynamicColumn) (cols : List Column) :
    (TableHosts.addColumns ⟨cols, dyns⟩ p offsets).columns =
      cols ++ (TableHosts.addColumns Table.empty p offsets).columns := by
  induction cols with
  | nil =>
    dsimp only [TableHosts.addColumns, Table.addColumn, Table.addDynamicColumn, Table.empty,
      List.nil_append, List.singleton_append, List.cons_append]
  | cons col rest ih =>
    dsimp only [TableHosts.addColumns, Table.addColumn, Table.addDynamicColumn, Table.empty,
      List.nil_append, List.singleton_append, List.cons_append] at ih ⊢
    exact congrArg (List.cons col) ih

set_option maxRecDepth 100000 in
theorem hosts_addColumns_appends_dynamic (p : String) (offsets : ColumnOffsets)
    (cols : List Column) (dyns : List DynamicColumn) :
    (TableHosts.addColumns ⟨cols, dyns⟩ p offsets).dynamic_columns =
      dyns ++ (TableHosts.addColumns Table.empty p offsets).dynamic_columns := by
  induction dyns with
  | nil =>
    dsimp only [TableHosts.addColumns, Table.addColumn, Table.addDynamicColumn, Table.empty,
      List.nil_append, List.singleton_append, List.cons_append]
  | cons dyn rest ih =>
    dsimp only [TableHosts.addColumns, Table.addColumn, Table.addDynamicColumn, Table.empty,
      List.nil_append, List.singleton_append, List.cons_append] at ih ⊢
    exact congrArg (List.cons dyn) ih

theorem hosts_addColumns_appends (table : Table) (p : String) (offsets : ColumnOffsets) :
    (TableHosts.addColumns table p offsets).columns =
        table.columns ++ (TableHosts.addColumns Table.empty p offsets).columns ∧
      (TableHosts.addColumns table p offsets).dynamic_columns =
        table.dynamic_columns ++
          (TableHosts.addColumns Table.empty p offsets).dynamic_columns := by
  cases table with
  | mk cols dyns =>
    exact ⟨hosts_addColumns_appends_columns p offsets dyns cols,
      hosts_addColumns_appends_dynamic p offsets cols dyns⟩

set_option maxRecDepth 100000 in
theorem hosts_addColumns_names (p : String) (offsets offsets0 : ColumnOffsets) :
    (TableHosts.addColumns Table.empty p offsets).columns.map
          (fun col => (col.name, col.cls)) =
        (TableHosts.addColumns Table.empty "" offsets0).columns.map
          (fun col => (p ++ col.name, col.cls)) ∧
      (TableHosts.addColumns Table.empty p offsets).dynamic_columns.map
          (fun dyn => (dyn.name, dyn.cls)) =
        (TableHosts.addColumns Table.empty "" offsets0).dynamic_columns.map
          (fun dyn => (p ++ dyn.name, dyn.cls)) := by
  dsimp only [TableHosts.addColumns, Table.addColumn, Table.addDynamicColumn, Table.empty,
    List.nil_append, List.singleton_append, List.cons_append, List.map_cons, List.map_nil]
  exact ⟨rfl, rfl⟩

set_option maxRecDepth 100000 in
theorem services_host_named_columns :
    TableServices.new.columns.filter (fun col => "host_".data.isPrefixOf col.name.data) =
        (TableHosts.addColumns Table.empty "host_"
          (ColumnOffsets.empty.add Shifter.host_ptr)).columns ∧
      TableServices.new.dynamic_columns.filter
          (fun dyn => "host_".data.isPrefixOf dyn.name.data) =
        (TableHosts.addColumns Table.empty "host_"
          (ColumnOffsets.empty.add Shifter.host_ptr)).dynamic_columns := by
  decide

/-- C17: for every prefix `p`, `TableHosts::addColumns(table, p, offsets)` adds its columns
and dynamic columns after those the table already has, the names it registers are the
names registered with the empty prefix with `p` put in front of each, in the same order
and with the same classes, so every one is `p` followed by a field name; and the columns
of the services table whose name starts with `host_` are the columns of the hosts table
under the prefix `host_`. -/
theorem host_columns_named_by_prefix (table : Table) (p : String) (offsets : ColumnOffsets) :
    ((TableHosts.addColumns table p offsets).columns =
        table.columns ++ (TableHosts.addColumns Table.empty p offsets).columns ∧
      (TableHosts.addColumns table p offsets).dynamic_columns =
        table.dynamic_columns ++
          (TableHosts.addColumns Table.empty p offsets).dynamic_columns) ∧
    ((TableHosts.addColumns Table.empty p offsets).columns.map (fun col => col.name) =
        TableHosts.new.columns.map (fun col => p ++ col.name) ∧
      (TableHosts.addColumns Table.empty p offsets).dynamic_columns.map
          (fun dyn => dyn.name) =
        TableHosts.new.dynamic_columns.map (fun dyn => p ++ dyn.name)) ∧
    ((∀ col ∈ (TableHosts.addColumns Table.empty p offsets).columns,
        ∃ field ∈ TableHosts.new.columns.map (fun col => col.name), col.name = p ++ field) ∧
      (∀ dyn ∈ (TableHosts.addColumns Table.empty p offsets).dynamic_columns,
        ∃ field ∈ TableHosts.new.dynamic_columns.map (fun dyn => dyn.name),
          dyn.name = p ++ field)) ∧
    ((TableServices.new.columns.filter
          (fun col => "host_".data.isPrefixOf col.name.data)).map
          (fun col => (col.name, col.cls)) =
        TableHosts.new.columns.map (fun col => ("host_" ++ col.name, col.cls)) ∧
      (TableServices.new.dynamic_columns.filter
          (fun dyn => "host_".data.isPrefixOf dyn.name.data)).map
          (fun dyn => (dyn.name, dyn.cls)) =
        TableHosts.new.dynamic_columns.map (fun dyn => ("host_" ++ dyn.name, dyn.cls))) := by
  have hnames := hosts_addColumns_names p offsets ColumnOffsets.empty
  have hstatic : (TableHosts.addColumns Table.empty p offsets).columns.map
      (fun col => col.name) = TableHosts.new.columns.map (fun col => p ++ col.name) := by
    have h := congrArg (List.map Prod.fst) hnames.1
    simpa [List.map_map, Function.comp_def, TableHosts.new] using h
  have hdynamic : (TableHosts.addColumns Table.empty p offsets).dynamic_columns.map
      (fun dyn => dyn.name) = TableHosts.new.dynamic_columns.map (fun dyn => p ++ dyn.name) := by
    have h := congrArg (List.map Prod.fst) hnames.2
    simpa [List.map_map, Function.comp_def, TableHosts.new] using h
  refine ⟨hosts_addColumns_appends table p offsets, ⟨hstatic, hdynamic⟩, ⟨?_, ?_⟩, ?_, ?_⟩
  · intro col hcol
    have hmem : col.name ∈ TableHosts.new.columns.map (fun col => p ++ col.name) := by
      rw [← hstatic]
      exact List.mem_map.mpr ⟨col, hcol, rfl⟩
    obtain ⟨col0, hcol0, heq⟩ := List.mem_map.mp hmem
    exact ⟨col0.name, List.mem_map.mpr ⟨col0, hcol0, rfl⟩, heq.symm⟩
  · intro dyn hdyn
    have hmem : dyn.name ∈ TableHosts.new.dynamic_columns.map (fun dyn => p ++ dyn.name) := by
      rw [← hdynamic]
      exact List.mem_map.mpr ⟨dyn, hdyn, rfl⟩
    obtain ⟨dyn0, hdyn0, heq⟩ := List.mem_map.mp hmem
    exact ⟨dyn0.name, List.mem_map.mpr ⟨dyn0, hdyn0, rfl⟩, heq.symm⟩
  · rw [services_host_named_columns.1]
    exact (hosts_addColumns_names "host_" (ColumnOffsets.empty.add Shifter.host_ptr)
      ColumnOffsets.empty).1
  · rw [services_host_named_columns.2]
    exact (hosts_addColumns_names "host_" (ColumnOffsets.empty.add Shifter.host_ptr)
      ColumnOffsets.empty).2

/-! ## Uniqueness of the column names -/

set_option maxRecDepth 1000000 in
set_option maxHeartbeats 4000000 in
theorem hosts_names_keys_nodup : (TableHosts.new.names.map nameKey).Nodup := by
  decide

theorem hosts_names_nodup : TableHosts.new.names.Nodup :=
  List.Nodup.of_map nameKey hosts_names_keys_nodup

set_option maxRecDepth 1000000 in
set_option maxHeartbeats 4000000 in
theorem services_native_names_keys_nodup :
    ((TableServices.addColumns Table.empty "" ColumnOffsets.empty false).names.map
      nameKey).Nodup := by
  decide

theorem services_native_names_nodup :
    (TableServices.addColumns Table.empty "" ColumnOffsets.empty false).names.Nodup :=
  List.Nodup.of_map nameKey services_native_names_keys_nodup

set_option maxRecDepth 1000000 in
set_option maxHeartbeats 4000000 in
theorem services_embedded_names_keys_nodup :
    ((TableHosts.addColumns Table.empty "host_"
      (ColumnOffsets.empty.add Shifter.host_ptr)).names.map nameKey).Nodup := by
  decide

theorem services_embedded_names_nodup :
    (TableHosts.addColumns Table.empty "host_"
      (ColumnOffsets.empty.add Shifter.host_ptr)).names.Nodup :=
  List.Nodup.of_map nameKey services_embedded_names_keys_nodup

set_option maxRecDepth 100000 in
theorem services_native_names_not_host :
    ∀ name ∈ (TableServices.addColumns Table.empty "" ColumnOffsets.empty false).names,
      ¬ "host_".data <+: name.data := by
  decide

set_option maxRecDepth 100000 in
theorem services_embedded_names_host :
    ∀ name ∈ (TableHosts.addColumns Table.empty "host_"
        (ColumnOffsets.empty.add Shifter.host_ptr)).names,
      "host_".data <+: name.data := by
  decide

set_option maxRecDepth 100000 in
theorem services_native_table_columns :
    (TableServices.addColumns Table.empty "" ColumnOffsets.empty false).columns =
        (TableServices.addColumnsBeforeHosts Table.empty "" ColumnOffsets.empty).columns ++
          (TableServices.addColumnsAfterHosts Table.empty "" ColumnOffsets.empty).columns ∧
      (TableServices.addColumns Table.empty "" ColumnOffsets.empty false).dynamic_columns =
        (TableServices.addColumnsBeforeHosts Table.empty "" ColumnOffsets.empty).dynamic_columns ++
          (TableServices.addColumnsAfterHosts Table.empty "" ColumnOffsets.empty).dynamic_columns := by
  exact ⟨rfl, rfl⟩

theorem services_names_perm :
    List.Perm TableServices.new.names
      ((TableServices.addColumns Table.empty "" ColumnOffsets.empty false).names ++
        (TableHosts.addColumns Table.empty "host_"
          (ColumnOffsets.empty.add Shifter.host_ptr)).names) := by
  unfold Table.names
  rw [services_table_columns, services_table_dynamic_columns,
    services_native_table_columns.1, services_native_table_columns.2]
  simp only [List.map_append]
  rw [← Multiset.coe_eq_coe]
  simp only [← Multiset.coe_add]
  abel

theorem services_names_nodup : TableServices.new.names.Nodup := by
  rw [services_names_perm.nodup_iff, List.nodup_append]
  refine ⟨services_native_names_nodup, services_embedded_names_nodup, ?_⟩
  intro name hnative hembedded
  exact services_native_names_not_host name hnative
    (services_embedded_names_host name hembedded)

/-- C18: the names registered in one table are pairwise distinct, columns and dynamic
columns taken together: those the constructor of `TableHosts` registers, and those the
constructor of `TableServices` registers. No native column of the services table has the
name of an embedded host column: every embedded name starts with `host_` and no native
name does. -/
theorem column_names_pairwise_distinct :
    TableHosts.new.names.Nodup ∧
      TableServices.new.names.Nodup ∧
      (∀ native ∈ (TableServices.addColumns Table.empty "" ColumnOffsets.empty false).names,
        ∀ embedded ∈ (TableHosts.addColumns Table.empty "host_"
            (ColumnOffsets.empty.add Shifter.host_ptr)).names,
          native ≠ embedded) := by
  refine ⟨hosts_names_nodup, services_names_nodup, ?_⟩
  intro native hnative embedded hembedded heq
  exact services_native_names_not_host native hnative
    (heq ▸ services_embedded_names_host embedded hembedded)

/-! ## Which index the services table uses -/

theorem callsUntilStop_restriction {σ : Type} (query : Query σ)
    (other : String → Option String) (s : σ) (rows : List Row) :
    callsUntilStop { query with stringValueRestrictionFor := other } s rows =
      callsUntilStop query s rows := by
  induction rows generalizing s with
  | nil => rfl
  | cons r rest ih =>
    rcases h : query.processDataset s r with ⟨b, s'⟩
    cases b <;> simp [callsUntilStop, h, ih]

theorem scanUntilStop_restriction {σ α : Type} (query : Query σ)
    (other : String → Option String) (mkRow : α → Row) (xs : List α) (s : σ) :
    scanUntilStop { query with stringValueRestrictionFor := other } mkRow xs s =
      scanUntilStop query mkRow xs s := by
  induction xs generalizing s with
  | nil => rfl
  | cons x rest ih =>
    rcases h : query.processDataset s (mkRow x) with ⟨b, s'⟩
    cases b <;> simp [scanUntilStop, h, ih]

theorem scanServicesOrReturn_restriction {σ : Type} (query : Query σ)
    (other : String → Option String) (xs : List ServicePtr) (s : σ) :
    scanServicesOrReturn { query with stringValueRestrictionFor := other } xs s =
      scanServicesOrReturn query xs s := by
  induction xs generalizing s with
  | nil => rfl
  | cons x rest ih =>
    rcases h : query.processDataset s (Row.ofService x) with ⟨b, s'⟩
    cases b <;> simp [scanServicesOrReturn, h, ih]

theorem scanMemberServices_restriction {σ : Type} (core : Core) (query : Query σ)
    (other : String → Option String) (ms : List HostPtr) (s : σ) :
    scanMemberServices core { query with stringValueRestrictionFor := other } ms s =
      scanMemberServices core query ms s := by
  induction ms generalizing s with
  | nil => rfl
  | cons m rest ih =>
    simp only [scanMemberServices, scanServicesOrReturn_restriction]
    rcases scanServicesOrReturn query (core.hostAt m).services s with ⟨b, s'⟩
    cases b <;> simp [ih]

/-- C21: `TableServices::answerQuery` uses one index, in the fixed priority `host_name`,
`groups`, `host_groups`. With a `host_name` restriction resolving to the host `h` the
candidates are the services of `h`, and the calls are the same for every other choice of
the remaining restrictions; with a `groups` restriction resolving to the service group
`sg` and no resolving `host_name` the candidates are the members of `sg`, and the calls
are the same whatever the `host_groups` restriction is. -/
theorem services_index_priority {σ : Type} (core : Core) (query : Query σ) (s : σ) :
    (∀ (value : String) (h : HostPtr),
      query.stringValueRestrictionFor "host_name" = some value →
      core.find_host value = some h →
      CutAfterFirstStop (TableServices.calls core query s)
          ((core.hostAt h).services.map Row.ofService) ∧
        ((∀ s row, (query.processDataset s row).1 = true) →
          (TableServices.calls core query s).map Prod.fst =
            (core.hostAt h).services.map Row.ofService) ∧
        (∀ other : String → Option String, other "host_name" = some value →
          TableServices.calls core { query with stringValueRestrictionFor := other } s =
            TableServices.calls core query s)) ∧
    (∀ (value : String) (sg : ServiceGroupPtr),
      (query.stringValueRestrictionFor "host_name").bind core.find_host = none →
      query.stringValueRestrictionFor "groups" = some value →
      core.find_servicegroup value = some sg →
      CutAfterFirstStop (TableServices.calls core query s)
          ((core.servicegroupAt sg).members.map Row.ofService) ∧
        ((∀ s row, (query.processDataset s row).1 = true) →
          (TableServices.calls core query s).map Prod.fst =
            (core.servicegroupAt sg).members.map Row.ofService) ∧
        (∀ other : String → Option String,
          other "host_name" = query.stringValueRestrictionFor "host_name" →
          other "groups" = some value →
          TableServices.calls core { query with stringValueRestrictionFor := other } s =
            TableServices.calls core query s)) := by
  constructor
  · intro value h hrestr hfind
    have hcand : ∀ restriction : String → Option String, restriction "host_name" = some value →
        TableServices.candidates core restriction =
          (core.hostAt h).services.map Row.ofService := by
      intro restriction hr
      simp [TableServices.candidates, hr, hfind]
    refine ⟨?_, ?_, ?_⟩
    · rw [← hcand _ hrestr, services_calls_eq]
      exact callsUntilStop_cut _ _ _
    · intro hcont
      rw [services_calls_eq, callsUntilStop_always query hcont, hcand _ hrestr]
    · intro other hother
      rw [services_calls_eq, services_calls_eq, hcand _ hrestr]
      simp only [hcand other hother]
      exact callsUntilStop_restriction query other s _
  · intro value sg hname hrestr hfind
    have hcand : ∀ restriction : String → Option String,
        (restriction "host_name").bind core.find_host = none →
        restriction "groups" = some value →
        TableServices.candidates core restriction =
          (core.servicegroupAt sg).members.map Row.ofService := by
      intro restriction hn hr
      simp [TableServices.candidates, hn, hr, hfind]
    refine ⟨?_, ?_, ?_⟩
    · rw [← hcand _ hname hrestr, services_calls_eq]
      exact callsUntilStop_cut _ _ _
    · intro hcont
      rw [services_calls_eq, callsUntilStop_always query hcont, hcand _ hname hrestr]
    · intro other hother hgroups
      rw [services_calls_eq, services_calls_eq, hcand _ hname hrestr]
      simp only [hcand other (by rw [hother]; exact hname) hgroups]
      exact callsUntilStop_restriction query other s _

/-- Witness of C21 on `exampleCore`: with all three restrictions the two services of
`alpha` are passed; with `groups = SG` and `host_groups = G2` the two members of `SG`. -/
theorem services_index_priority_witness :
    (TableServices.calls exampleCore (collectAll allThreeRestrictions) ()).map Prod.fst =
        [Row.ofService 0, Row.ofService 1] ∧
      (TableServices.calls exampleCore (collectAll groupsAndHostGroups) ()).map Prod.fst =
        [Row.ofService 0, Row.ofService 2] :=
  ⟨((services_index_priority exampleCore (collectAll allThreeRestrictions) ()).1 "alpha" 0
      (by decide) (by decide)).2.1 (fun _ _ => rfl),
    ((services_index_priority exampleCore (collectAll groupsAndHostGroups) ()).2 "SG" 0
      (by decide) (by decide) (by decide)).2.1 (fun _ _ => rfl)⟩

theorem candidates_without_unresolved_host_name (core : Core)
    (restriction : String → Option String) (value : String)
    (hrestr : restriction "host_name" = some value) (hfind : core.find_host value = none) :
    TableServices.candidates core
        (fun c => if c = "host_name" then none else restriction c) =
      TableServices.candidates core restriction := by
  simp [TableServices.candidates, hrestr, hfind]

/-- C22: when the `host_name` restriction names a host that `find_host` does not resolve,
`TableServices::answerQuery` behaves as for the same query without the `host_name`
restriction: it leaves the callback in the same state and makes the same calls. So with no
other restriction and a callback that always continues, every service of `service_list`
is passed, in list order. -/
theorem unresolved_host_name_is_ignored {σ : Type} (core : Core) (query : Query σ) (s : σ)
    (value : String)
    (hrestr : query.stringValueRestrictionFor "host_name" = some value)
    (hfind : core.find_host value = none) :
    TableServices.answerQuery core query s =
        TableServices.answerQuery core (query.withoutRestriction "host_name") s ∧
      TableServices.calls core query s =
        TableServices.calls core (query.withoutRestriction "host_name") s ∧
      (query.stringValueRestrictionFor "groups" = none →
        query.stringValueRestrictionFor "host_groups" = none →
        (∀ s row, (query.processDataset s row).1 = true) →
        (TableServices.calls core query s).map Prod.fst =
          core.service_list.map Row.ofService) := by
  refine ⟨?_, ?_, ?_⟩
  · simp [TableServices.answerQuery, TableServices.answerQueryWithoutHost,
      Query.withoutRestriction, hrestr, hfind, scanUntilStop_restriction,
      scanMemberServices_restriction]
  · rw [services_calls_eq, services_calls_eq]
    simp only [Query.withoutRestriction]
    rw [candidates_without_unresolved_host_name core _ value hrestr hfind]
    exact (callsUntilStop_restriction query _ s _).symm
  · intro hgroups hhost hcont
    rw [services_calls_eq, callsUntilStop_always query hcont]
    simp [TableServices.candidates, hrestr, hfind, hgroups, hhost]

/-- Witness of C22 on `exampleCore`, which has no host `nobody`: under
`host_name = nobody` all four services are passed. -/
theorem unresolved_host_name_is_ignored_witness :
    (TableServices.calls exampleCore (collectAll (restrictTo "host_name" "nobody")) ()).map
        Prod.fst =
      [Row.ofService 0, Row.ofService 1, Row.ofService 2, Row.ofService 3] :=
  (unresolved_host_name_is_ignored exampleCore (collectAll (restrictTo "host_name" "nobody"))
    () "nobody" (by decide) (by decide)).2.2 (by decide) (by decide) (fun _ _ => rfl)

/-! ## The columns `state` and `hard_state` -/

/-- C23: the column `hard_state` of a host is 0 when `current_state` is `HOST_UP`,
whatever the other members hold; otherwise it is `current_state` when `state_type` is
`HARD_STATE`, and `last_hard_state` when it is not. The same holds for a service with
`STATE_OK` in place of `HOST_UP`. -/
theorem hard_state_by_cases (HOST_UP STATE_OK HARD_STATE : Int) (hst : host)
    (svc : service) :
    ((hst.current_state = HOST_UP → TableHosts.hard_state HOST_UP HARD_STATE hst = 0) ∧
      (hst.current_state ≠ HOST_UP → hst.state_type = HARD_STATE →
        TableHosts.hard_state HOST_UP HARD_STATE hst = hst.current_state) ∧
      (hst.current_state ≠ HOST_UP → hst.state_type ≠ HARD_STATE →
        TableHosts.hard_state HOST_UP HARD_STATE hst = hst.last_hard_state)) ∧
    ((svc.current_state = STATE_OK → TableServices.hard_state STATE_OK HARD_STATE svc = 0) ∧
      (svc.current_state ≠ STATE_OK → svc.state_type = HARD_STATE →
        TableServices.hard_state STATE_OK HARD_STATE svc = svc.current_state) ∧
      (svc.current_state ≠ STATE_OK → svc.state_type ≠ HARD_STATE →
        TableServices.hard_state STATE_OK HARD_STATE svc = svc.last_hard_state)) := by
  refine ⟨⟨?_, ?_, ?_⟩, ⟨?_, ?_, ?_⟩⟩
  · intro h; simp [TableHosts.hard_state, h]
  · intro h1 h2; simp [TableHosts.hard_state, h1, h2]
  · intro h1 h2; simp [TableHosts.hard_state, h1, h2]
  · intro h; simp [TableServices.hard_state, h]
  · intro h1 h2; simp [TableServices.hard_state, h1, h2]
  · intro h1 h2; simp [TableServices.hard_state, h1, h2]

/-- Witness of C23 with `HOST_UP = STATE_OK = 0` and `HARD_STATE = 1`: `exampleHost` is down in a soft
state, so its `hard_state` is its last hard state 2. -/
theorem hard_state_by_cases_witness :
    exampleHost.current_state ≠ 0 ∧ exampleHost.state_type ≠ 1 ∧
      TableHosts.hard_state 0 1 exampleHost = 2 :=
  ⟨by decide, by decide,
    (hard_state_by_cases 0 0 1 exampleHost {}).1.2.2 (by decide) (by decide)⟩

/-- C24: with `HOST_UP = STATE_OK = 0`, the column `hard_state` of a host or service whose
`state_type` is `HARD_STATE` equals its column `state`, also when the current state is
UP or OK; and for every host and service `hard_state` is `current_state` or
`last_hard_state`. -/
theorem hard_state_is_a_recorded_state (HOST_UP STATE_OK HARD_STATE : Int)
    (hup : HOST_UP = 0) (hok : STATE_OK = 0) (hst : host) (svc : service) :
    (hst.state_type = HARD_STATE →
        TableHosts.hard_state HOST_UP HARD_STATE hst = TableHosts.state hst) ∧
      (svc.state_type = HARD_STATE →
        TableServices.hard_state STATE_OK HARD_STATE svc = TableServices.state svc) ∧
      (TableHosts.hard_state HOST_UP HARD_STATE hst = hst.current_state ∨
        TableHosts.hard_state HOST_UP HARD_STATE hst = hst.last_hard_state) ∧
      (TableServices.hard_state STATE_OK HARD_STATE svc = svc.current_state ∨
        TableServices.hard_state STATE_OK HARD_STATE svc = svc.last_hard_state) := by
  subst hup hok
  refine ⟨?_, ?_, ?_, ?_⟩
  · intro h
    by_cases h0 : hst.current_state = 0 <;> simp [TableHosts.hard_state, TableHosts.state, h0, h]
  · intro h
    by_cases h0 : svc.current_state = 0 <;>
      simp [TableServices.hard_state, TableServices.state, h0, h]
  · by_cases h0 : hst.current_state = 0
    · left; simp [TableHosts.hard_state, h0]
    · by_cases h1 : hst.state_type = HARD_STATE
      · left; simp [TableHosts.hard_state, h0, h1]
      · right; simp [TableHosts.hard_state, h0, h1]
  · by_cases h0 : svc.current_state = 0
    · left; simp [TableServices.hard_state, h0]
    · by_cases h1 : svc.state_type = HARD_STATE
      · left; simp [TableServices.hard_state, h0, h1]
      · right; simp [TableServices.hard_state, h0, h1]

/-- Witness of C24 with `HOST_UP = STATE_OK = 0` and `HARD_STATE = 1`: a host that is up in
a hard state with last hard state 2 has `hard_state` 0, its `state`. -/
theorem hard_state_is_a_recorded_state_witness :
    TableHosts.hard_state 0 1 { current_state := 0, state_type := 1, last_hard_state := 2 } =
      TableHosts.state { current_state := 0, state_type := 1, last_hard_state := 2 } :=
  (hard_state_is_a_recorded_state 0 0 1 rfl rfl
    { current_state := 0, state_type := 1, last_hard_state := 2 } {}).1 rfl

/-! ## The column `contacts` -/

theorem unorderedSetInsert_nodup (names : List String) (name : String) (h : names.Nodup) :
    (unorderedSetInsert names name).Nodup := by
  unfold unorderedSetInsert
  split
  · exact h
  · rename_i hnot
    rw [List.nodup_append]
    refine ⟨h, List.nodup_singleton name, ?_⟩
    intro a ha hb
    have : a = name := by simpa using hb
    exact hnot (this ▸ ha)

theorem mem_unorderedSetInsert (names : List String) (name n : String) :
    n ∈ unorderedSetInsert names name ↔ n ∈ names ∨ n = name := by
  unfold unorderedSetInsert
  split
  · rename_i hmem
    constructor
    · exact Or.inl
    · rintro (h | h)
      · exact h
      · exact h ▸ hmem
  · simp

theorem insertContactNames_nodup (core : Core) (members : List ContactPtr)
    (names : List String) (h : names.Nodup) : (insertContactNames core names members).Nodup := by
  induction members generalizing names with
  | nil => exact h
  | cons cm rest ih =>
    exact ih _ (unorderedSetInsert_nodup names _ h)

theorem mem_insertContactNames (core : Core) (members : List ContactPtr)
    (names : List String) (n : String) :
    n ∈ insertContactNames core names members ↔
      n ∈ names ∨ ∃ cm ∈ members, (core.contactAt cm).name = n := by
  induction members generalizing names with
  | nil => simp [insertContactNames]
  | cons cm rest ih =>
    have hstep : insertContactNames core names (cm :: rest) =
        insertContactNames core (unorderedSetInsert names (core.contactAt cm).name) rest := rfl
    rw [hstep, ih, mem_unorderedSetInsert]
    constructor
    · rintro ((h | h) | ⟨c, hc, hn⟩)
      · exact Or.inl h
      · exact Or.inr ⟨cm, List.mem_cons_self _ _, h.symm⟩
      · exact Or.inr ⟨c, List.mem_cons_of_mem _ hc, hn⟩
    · rintro (h | ⟨c, hc, hn⟩)
      · exact Or.inl (Or.inl h)
      · rcases List.mem_cons.mp hc with rfl | hc
        · exact Or.inl (Or.inr hn.symm)
        · exact Or.inr ⟨c, hc, hn⟩

theorem contactNames_nodup (core : Core) (contacts : List ContactPtr)
    (contact_groups : List ContactGroupPtr) : (contactNames core contacts contact_groups).Nodup := by
  unfold contactNames
  have hstart : (insertContactNames core [] contacts).Nodup :=
    insertContactNames_nodup core contacts [] List.nodup_nil
  generalize insertContactNames core [] contacts = names at hstart
  induction contact_groups generalizing names with
  | nil => exact hstart
  | cons cgm rest ih => exact ih _ (insertContactNames_nodup core _ names hstart)

theorem mem_contactNames (core : Core) (contacts : List ContactPtr)
    (contact_groups : List ContactGroupPtr) (n : String) :
    n ∈ contactNames core contacts contact_groups ↔
      (∃ cm ∈ contacts, (core.contactAt cm).name = n) ∨
        ∃ cgm ∈ contact_groups, ∃ cm ∈ (core.contactgroupAt cgm).members,
          (core.contactAt cm).name = n := by
  unfold contactNames
  have hstart : ∀ m, m ∈ insertContactNames core [] contacts ↔
      ∃ cm ∈ contacts, (core.contactAt cm).name = m := by
    intro m
    simp [mem_insertContactNames]
  generalize insertContactNames core [] contacts = names at hstart
  have hfold : ∀ (groups : List ContactGroupPtr) (acc : List String),
      n ∈ groups.foldl
          (fun names cgm => insertContactNames core names (core.contactgroupAt cgm).members)
          acc ↔
        n ∈ acc ∨ ∃ cgm ∈ groups, ∃ cm ∈ (core.contactgroupAt cgm).members,
          (core.contactAt cm).name = n := by
    intro groups
    induction groups with
    | nil => intro acc; simp
    | cons cgm rest ih =>
      intro acc
      rw [List.foldl_cons, ih, mem_insertContactNames]
      constructor
      · rintro ((h | h) | ⟨g, hg, h⟩)
        · exact Or.inl h
        · exact Or.inr ⟨cgm, List.mem_cons_self _ _, h⟩
        · exact Or.inr ⟨g, List.mem_cons_of_mem _ hg, h⟩
      · rintro (h | ⟨g, hg, h⟩)
        · exact Or.inl (Or.inl h)
        · rcases List.mem_cons.mp hg with rfl | hg
          · exact Or.inl (Or.inr h)
          · exact Or.inr ⟨g, hg, h⟩
  rw [hfold, hstart]

/-- C25: for every host and every service the value of the column `contacts` has no name
twice, and a name is in it exactly when it is the name of a direct contact or of a member
of one of the contact groups; so a contact reached directly and through a group, or
through two groups, is listed once. -/
theorem contacts_is_the_set_of_names (core : Core) (hst : host) (svc : service) :
    ((TableHosts.contacts core hst).Nodup ∧
      ∀ n : String, n ∈ TableHosts.contacts core hst ↔
        (∃ cm ∈ hst.contacts, (core.contactAt cm).name = n) ∨
          ∃ cgm ∈ hst.contact_groups, ∃ cm ∈ (core.contactgroupAt cgm).members,
            (core.contactAt cm).name = n) ∧
    ((TableServices.contacts core svc).Nodup ∧
      ∀ n : String, n ∈ TableServices.contacts core svc ↔
        (∃ cm ∈ svc.contacts, (core.contactAt cm).name = n) ∨
          ∃ cgm ∈ svc.contact_groups, ∃ cm ∈ (core.contactgroupAt cgm).members,
            (core.contactAt cm).name = n) :=
  ⟨⟨contactNames_nodup core _ _, mem_contactNames core _ _⟩,
    ⟨contactNames_nodup core _ _, mem_contactNames core _ _⟩⟩

/-! ## Staleness -/

theorem strncmp_eq_iff_startsWith (s t : String) (n : Nat) (hn : t.data.length = n) :
    strncmp_eq s t n = true ↔ t.data <+: s.data := by
  unfold strncmp_eq
  rw [beq_iff_eq, ← hn, List.take_length, List.prefix_iff_eq_take]
  exact eq_comm

theorem stalenessOfCheckMkService_eq_term (core : Core) (age : ℚ) (services : List ServicePtr) :
    stalenessOfCheckMkService core age services =
      (stalenessTermOfCheckMkService core age services).map StalenessTerm.value := by
  induction services with
  | nil => rfl
  | cons p rest ih =>
    unfold stalenessOfCheckMkService stalenessTermOfCheckMkService
    cases (core.serviceAt p).check_command_ptr with
    | none => rfl
    | some c =>
      by_cases h : strncmp_eq c.name "check-mk" 8 = true
      · simp [h, StalenessTerm.value]
      · simp [h, ih]

theorem services_staleness_eq_term (core : Core) (svc : service) :
    TableServices.staleness core svc =
      (TableServices.stalenessTerm core svc).map StalenessTerm.value := by
  unfold TableServices.staleness TableServices.stalenessTerm
  by_cases hci : svc.check_interval = 0
  · simp only [hci, ne_eq, not_true_eq_false, if_false]
    cases svc.check_command_ptr with
    | none => rfl
    | some c =>
      by_cases h : strncmp_eq c.name "check_mk-" 9 = true
      · simp only [h, if_true]
        cases svc.host_ptr with
        | none => rfl
        | some hp => exact stalenessOfCheckMkService_eq_term core _ _
      · simp [h, StalenessTerm.value]
  · simp [hci, StalenessTerm.value]

/-- C26: for a host and for a service with `check_interval ≠ 0` the staleness is
`(now − last_check) / (check_interval × interval_length)` in exact arithmetic. For a
service it is the same for every check command, host link and object memory: only
`check_interval`, `last_check`, `now` and `interval_length` enter. -/
theorem staleness_with_check_interval (core : Core) (hst : host) (svc : service) :
    (hst.check_interval ≠ 0 →
      TableHosts.staleness core hst =
        ((core.now - hst.last_check : Int) : ℚ) /
          (hst.check_interval * core.interval_length)) ∧
    (svc.check_interval ≠ 0 →
      TableServices.staleness core svc =
          some (((core.now - svc.last_check : Int) : ℚ) /
            (svc.check_interval * core.interval_length)) ∧
        ∀ (other : service) (memory : Core),
          other.check_interval = svc.check_interval → other.last_check = svc.last_check →
          memory.now = core.now → memory.interval_length = core.interval_length →
          TableServices.staleness memory other = TableServices.staleness core svc) := by
  constructor
  · intro h
    simp [TableHosts.staleness, h]
  · intro h
    have hval : ∀ (c : Core) (r : service), r.check_interval ≠ 0 →
        TableServices.staleness c r =
          some (((c.now - r.last_check : Int) : ℚ) / (r.check_interval * c.interval_length)) := by
      intro c r hr
      simp [TableServices.staleness, hr]
    refine ⟨hval core svc h, ?_⟩
    intro other memory hci hlc hnow hil
    rw [hval core svc h, hval memory other (by rw [hci]; exact h), hci, hlc, hnow, hil]

/-- Witness of C26: `exampleHost` has check interval 5 and was last checked at 400; in
`exampleCore` it is now 1000 and the interval length is 60. -/
theorem staleness_with_check_interval_witness :
    exampleHost.check_interval ≠ 0 ∧
      TableHosts.staleness exampleCore exampleHost =
        ((exampleCore.now - exampleHost.last_check : Int) : ℚ) /
          (exampleHost.check_interval * exampleCore.interval_length) :=
  ⟨by simp [exampleHost],
    (staleness_with_check_interval exampleCore exampleHost {}).1 (by simp [exampleHost])⟩

theorem stalenessOfCheckMkService_find (core : Core) (age : ℚ) (services : List ServicePtr)
    (hcmd : ∀ p ∈ services, (core.serviceAt p).check_command_ptr ≠ none) :
    stalenessOfCheckMkService core age services =
      some (match services.find? (commandNameStartsWith core "check-mk") with
        | some p =>
          age / ((if (core.serviceAt p).check_interval = 0 then 1
            else (core.serviceAt p).check_interval) * core.interval_length)
        | none => 1) := by
  induction services with
  | nil => rfl
  | cons p rest ih =>
    have hrest : ∀ q ∈ rest, (core.serviceAt q).check_command_ptr ≠ none :=
      fun q hq => hcmd q (List.mem_cons_of_mem _ hq)
    obtain ⟨c, hc⟩ := Option.ne_none_iff_exists'.mp (hcmd p (List.mem_cons_self _ _))
    unfold stalenessOfCheckMkService
    by_cases hstart : "check-mk".data <+: c.name.data
    · have h1 : strncmp_eq c.name "check-mk" 8 = true :=
        (strncmp_eq_iff_startsWith c.name "check-mk" 8 rfl).mpr hstart
      have h2 : commandNameStartsWith core "check-mk" p = true := by
        simp [commandNameStartsWith, hc, hstart]
      simp [hc, h1, List.find?_cons, h2]
    · have h1 : ¬ strncmp_eq c.name "check-mk" 8 = true := fun h =>
        hstart ((strncmp_eq_iff_startsWith c.name "check-mk" 8 rfl).mp h)
      have h2 : commandNameStartsWith core "check-mk" p = false := by
        simp [commandNameStartsWith, hc, hstart]
      simp only [hc, h1, if_false, List.find?_cons, h2]
      exact ih hrest

/-- C27: for a service with `check_interval = 0` and check command `cmd`: when the name of
`cmd` starts with `check_mk-`, the service has the host `h` and the services of `h` have
check commands, the staleness is the age divided by `c × interval_length`, where `c` is
the check interval (1 if that is 0) of the first service of `h` whose command name starts
with `check-mk`, and it is 1 when `h` has no such service; when the name of `cmd` does
not start with `check_mk-`, the staleness is the age divided by `interval_length`. -/
theorem staleness_without_check_interval (core : Core) (svc : service) (cmd : command)
    (hci : svc.check_interval = 0) (hcmd : svc.check_command_ptr = some cmd) :
    ("check_mk-".data <+: cmd.name.data →
      ∀ h : HostPtr, svc.host_ptr = some h →
        (∀ p ∈ (core.hostAt h).services, (core.serviceAt p).check_command_ptr ≠ none) →
        TableServices.staleness core svc =
          some (match (core.hostAt h).services.find? (commandNameStartsWith core "check-mk")
            with
            | some p =>
              ((core.now - svc.last_check : Int) : ℚ) /
                ((if (core.serviceAt p).check_interval = 0 then 1
                  else (core.serviceAt p).check_interval) * core.interval_length)
            | none => 1)) ∧
    (¬ "check_mk-".data <+: cmd.name.data →
      TableServices.staleness core svc =
        some (((core.now - svc.last_check : Int) : ℚ) / core.interval_length)) := by
  constructor
  · intro hstart h hhost hall
    have h1 : strncmp_eq cmd.name "check_mk-" 9 = true :=
      (strncmp_eq_iff_startsWith cmd.name "check_mk-" 9 rfl).mpr hstart
    simp only [TableServices.staleness, hci, ne_eq, not_true_eq_false, if_false, hcmd, h1,
      if_true, hhost]
    exact stalenessOfCheckMkService_find core _ _ hall
  · intro hstart
    have h1 : ¬ strncmp_eq cmd.name "check_mk-" 9 = true := fun h =>
      hstart ((strncmp_eq_iff_startsWith cmd.name "check_mk-" 9 rfl).mp h)
    simp [TableServices.staleness, hci, hcmd, h1]

/-- Witness of C27 on `exampleCore`: the service `disk` of `alpha` (address 1) has no check
interval and the command `check_mk-df`; the first service of `alpha` with a `check-mk`
command is `ping` (address 0) with check interval 1, so the staleness is
`1000 / (1 × 60)`. -/
theorem staleness_without_check_interval_witness :
    (exampleCore.serviceAt 1).check_interval = 0 ∧
      "check_mk-".data <+: "check_mk-df".data ∧
      TableServices.staleness exampleCore (exampleCore.serviceAt 1) = some (1000 / (1 * 60)) := by
  refine ⟨rfl, by decide, ?_⟩
  have hfind : (exampleCore.hostAt 0).services.find?
      (commandNameStartsWith exampleCore "check-mk") = some 0 := by decide
  have h := (staleness_without_check_interval exampleCore (exampleCore.serviceAt 1)
    { name := "check_mk-df" } rfl rfl).1 (by decide) 0 rfl (by decide)
  rw [hfind] at h
  rw [h]
  simp [exampleCore, exampleServiceAt]

/-- C28: provided `interval_length ≠ 0`, every division of a staleness computation has a
divisor other than 0, whatever `check_interval` is: the one of the host column and the
one on each branch of the service function. The terms examined are the computations
themselves: carrying out their division gives the staleness. -/
theorem staleness_divisor_nonzero (core : Core) (hlen : core.interval_length ≠ 0) :
    (∀ (hst : host) (dividend divisor : ℚ),
      TableHosts.stalenessTerm core hst = StalenessTerm.quotient dividend divisor →
      divisor ≠ 0) ∧
    (∀ (svc : service) (dividend divisor : ℚ),
      TableServices.stalenessTerm core svc = some (StalenessTerm.quotient dividend divisor) →
      divisor ≠ 0) ∧
    (∀ hst : host, TableHosts.staleness core hst = (TableHosts.stalenessTerm core hst).value) ∧
    (∀ svc : service, TableServices.staleness core svc =
      (TableServices.stalenessTerm core svc).map StalenessTerm.value) := by
  have hq : (core.interval_length : ℚ) ≠ 0 := by exact_mod_cast hlen
  have hprod : ∀ x : ℚ, (if x = 0 then 1 else x) * (core.interval_length : ℚ) ≠ 0 := by
    intro x
    by_cases hx : x = 0
    · simpa [hx] using hq
    · simpa [hx] using mul_ne_zero hx hq
  have hloop : ∀ (age : ℚ) (services : List ServicePtr) (dividend divisor : ℚ),
      stalenessTermOfCheckMkService core age services =
        some (StalenessTerm.quotient dividend divisor) → divisor ≠ 0 := by
    intro age services
    induction services with
    | nil =>
      intro dividend divisor h
      simp [stalenessTermOfCheckMkService] at h
    | cons p rest ih =>
      intro dividend divisor h
      unfold stalenessTermOfCheckMkService at h
      cases hc : (core.serviceAt p).check_command_ptr with
      | none => simp [hc] at h
      | some c =>
        by_cases hs : strncmp_eq c.name "check-mk" 8 = true
        · simp only [hc, hs, if_true, Option.some.injEq, StalenessTerm.quotient.injEq] at h
          rw [← h.2]
          exact hprod _
        · simp only [hc, hs, if_false] at h
          exact ih dividend divisor h
  refine ⟨?_, ?_, fun hst => rfl, services_staleness_eq_term core⟩
  · intro hst dividend divisor h
    simp only [TableHosts.stalenessTerm, StalenessTerm.quotient.injEq] at h
    rw [← h.2]
    exact hprod _
  · intro svc dividend divisor h
    unfold TableServices.stalenessTerm at h
    by_cases hci : svc.check_interval = 0
    · simp only [hci, ne_eq, not_true_eq_false, if_false] at h
      cases hc : svc.check_command_ptr with
      | none => simp [hc] at h
      | some c =>
        by_cases hs : strncmp_eq c.name "check_mk-" 9 = true
        · simp only [hc, hs, if_true] at h
          cases hh : svc.host_ptr with
          | none => simp [hh] at h
          | some hp =>
            simp only [hh] at h
            exact hloop _ _ dividend divisor h
        · simp only [hc, hs, Bool.false_eq_true, if_false, Option.some.injEq,
            StalenessTerm.quotient.injEq] at h
          rw [← h.2]
          exact hq
    · simp only [hci, ne_eq, not_false_eq_true, if_true, Option.some.injEq,
        StalenessTerm.quotient.injEq] at h
      rw [← h.2]
      exact mul_ne_zero hci hq

/-- Witness of C28 on `exampleCore`, whose interval length is 60: the divisor of the
staleness of a host with check interval 0 is `1 × 60`, which is not 0. -/
theorem staleness_divisor_nonzero_witness :
    exampleCore.interval_length ≠ 0 ∧
      TableHosts.stalenessTerm exampleCore { check_interval := 0, last_check := 400 } =
        StalenessTerm.quotient ((1000 - 400 : Int) : ℚ)
          ((if (0 : ℚ) = 0 then 1 else 0) * ((60 : Int) : ℚ)) ∧
      (if (0 : ℚ) = 0 then 1 else 0) * ((60 : Int) : ℚ) ≠ 0 :=
  ⟨by decide, rfl,
    (staleness_divisor_nonzero exampleCore (by decide)).1
      { check_interval := 0, last_check := 400 } _ _ rfl⟩

/-! ## The comment column and the requesting user -/

theorem commentRenderer_call_length (v : CommentColumn.verbosity)
    (getEntries : Row → List CommentData) (row : Row) :
    (detail.CommentRenderer.call v getEntries row).length = (getEntries row).length := by
  rw [detail.CommentRenderer.call, commentRenderer_foldl_step, List.nil_append]
  induction getEntries row with
  | nil => rfl
  | cons comment rest ih =>
    rw [List.flatMap_cons, List.length_append, ih]
    cases v <;> simp [detail.CommentRenderer.step, Nat.add_comm]

/-- C29: `CommentColumn::output` does not depend on the requesting user or on the timezone
offset: for every row and every two pairs of user and offset the rendered output is the
same, and for every user it has one element per entry of `getEntries(row)`, so that no
entry is left out for a user. -/
theorem comment_output_same_for_every_user {Contact : Type} (v : CommentColumn.verbosity)
    (getEntries : Row → List CommentData) (row : Row)
    (auth_user other_user : Option Contact) (timezone_offset other_offset : Int) :
    CommentColumn.output v getEntries row auth_user timezone_offset =
        CommentColumn.output v getEntries row other_user other_offset ∧
      (CommentColumn.output v getEntries row auth_user timezone_offset).length =
        (getEntries row).length :=
  ⟨rfl, commentRenderer_call_length v getEntries row⟩

end Livestatus
